import Mathlib

/-!
Verification of the WhatsApp appointment bot's synchronization and
deduplication engine.  The definitions below are a shallow embedding of the
JavaScript source:

* `saveAppointment` (simple-test.js) — the booking path's check-then-insert;
* `SimpleSyncManager` (simple-sync-manager.js) — the sync coordinator gate;
* `computeSyncPlan` / `applySyncFixes` / `syncAppointments` /
  `performFullSync` (calendarSync service) — the reconciliation engine;
* `checkDbDuplicates` / `cleanDbDuplicates` / `cleanCalendarDuplicates`
  (maintenance.js) — the deduplication sweeps.

Timestamps are modelled as natural numbers (milliseconds).  The timezone
interpretation of a date/time pair, and the parsing of a calendar event's
start string, are uninterpreted function parameters (`tzI`, `parseI`):
the engine only ever compares the resulting instants for equality.
-/

/-- An appointment row of the `appointments` table. -/
structure Appt where
  id : Nat
  patient_phone : String
  patient_name : String
  appointment_date : String
  appointment_time : String
  duration_minutes : Nat
  status : String
  google_event_id : Option String
  created_at : Nat
deriving DecidableEq, Repr

/-- A calendar event as returned by `getUpcomingAppointments` (id plus the
start string; other fields are not read by the sync or the sweeps). -/
structure CalEvent where
  id : String
  start : String
deriving DecidableEq, Repr

/-- The statuses the booking path's duplicate check treats as live
(`status IN ('scheduled','confirmed','pending')`). -/
def isActive (s : String) : Bool :=
  s = "scheduled" || s = "confirmed" || s = "pending"

/-- The (phone, date, time) slot of an appointment. -/
def slotKey (a : Appt) : String × String × String :=
  (a.patient_phone, a.appointment_date, a.appointment_time)

/-! ### Booking path: `saveAppointment` (simple-test.js)

The source runs two separate awaited statements: a SELECT for an existing
active appointment at the slot, then an INSERT.  `saveCheck` is the SELECT,
`saveInsert` the INSERT; `saveAppointment` is the sequential composition.
`raceSaveAppointment` is the interleaving in which two calls both perform
their SELECT before either INSERT (nothing in the code or the schema — the
`idx_appointments_unique_slot` index is not UNIQUE — prevents it). -/

/-- Data passed to `saveAppointment`. -/
structure ApptData where
  patient_phone : String
  patient_name : String
  appointment_date : String
  appointment_time : String
  duration_minutes : Nat
  google_event_id : Option String
  status : String
deriving DecidableEq, Repr

/-- The SELECT of `saveAppointment`: existing appointments at the same
(phone, date, time) with status in (scheduled, confirmed, pending). -/
def saveCheck (db : List Appt) (d : ApptData) : List Appt :=
  db.filter (fun a =>
    a.patient_phone = d.patient_phone &&
    a.appointment_date = d.appointment_date &&
    a.appointment_time = d.appointment_time &&
    isActive a.status)

/-- The INSERT of `saveAppointment`. -/
def saveInsert (db : List Appt) (d : ApptData) (newId : Nat) (now : Nat) :
    List Appt :=
  db ++ [{ id := newId
           patient_phone := d.patient_phone
           patient_name := d.patient_name
           appointment_date := d.appointment_date
           appointment_time := d.appointment_time
           duration_minutes := d.duration_minutes
           status := d.status
           google_event_id := d.google_event_id
           created_at := now }]

/-- `saveAppointment`: check, then insert only if no active appointment
exists at the slot; returns `(id, existed)` and the new table state. -/
def saveAppointment (db : List Appt) (d : ApptData) (newId now : Nat) :
    (Nat × Bool) × List Appt :=
  match saveCheck db d with
  | a :: _ => ((a.id, true), db)
  | [] => ((newId, false), saveInsert db d newId now)

/-- Two concurrent `saveAppointment` calls interleaved at the await point
between the SELECT and the INSERT: both checks read the initial state. -/
def raceSaveAppointment (db : List Appt) (d1 d2 : ApptData)
    (id1 id2 now1 now2 : Nat) : List Appt :=
  let c1 := saveCheck db d1
  let c2 := saveCheck db d2
  let db1 := if c1.isEmpty then saveInsert db d1 id1 now1 else db
  if c2.isEmpty then saveInsert db1 d2 id2 now2 else db1

/-- Number of active appointments at a slot. -/
def countActiveAt (db : List Appt) (phone date time : String) : Nat :=
  (db.filter (fun a =>
    a.patient_phone = phone && a.appointment_date = date &&
    a.appointment_time = time && isActive a.status)).length

/-! ### Sync coordinator: `SimpleSyncManager` (simple-sync-manager.js) -/

/-- The coordinator's mutable state (`isRunning`, `lastRun`). -/
structure SimpleSyncManager where
  isRunning : Bool
  lastRun : Nat
deriving DecidableEq, Repr

/-- `minInterval = 5 * 60 * 1000` ms, set once in the constructor. -/
def minInterval : Nat := 5 * 60 * 1000

/-- `canRun()`: false when already running or ran less than `minInterval`
ago; true otherwise. -/
def SimpleSyncManager.canRun (m : SimpleSyncManager) (now : Nat) : Bool :=
  if m.isRunning then false
  else if now - m.lastRun < minInterval then false
  else true

/-- `start()`: `canRun` gate; on success sets `isRunning := true` and
`lastRun := now`. -/
def SimpleSyncManager.start (m : SimpleSyncManager) (now : Nat) :
    Bool × SimpleSyncManager :=
  if m.canRun now then (true, { isRunning := true, lastRun := now })
  else (false, m)

/-- `stop()`: unconditionally clears `isRunning`. -/
def SimpleSyncManager.stop (m : SimpleSyncManager) : SimpleSyncManager :=
  { m with isRunning := false }

/-! ### Reconciliation engine (calendarSync service)

`syncAppointments` queries scheduled appointments with a non-null event id,
builds a JS `Map` from event id to appointment and one from event id to
calendar event, computes the discrepancy lists, and applies them.
JS `Map` is modelled as an association list with `mapSet` (insertion order,
overwrite in place) and `mapGet`. -/

/-- `Map.set`: overwrite in place if present, else append. -/
def mapSet {α β : Type} [DecidableEq α] (m : List (α × β)) (k : α) (v : β) :
    List (α × β) :=
  if m.any (fun p => p.1 = k) then
    m.map (fun p => if p.1 = k then (k, v) else p)
  else m ++ [(k, v)]

/-- `Map.get`. -/
def mapGet {α β : Type} [DecidableEq α] (m : List (α × β)) (k : α) :
    Option β :=
  (m.find? (fun p => p.1 = k)).map (fun p => p.2)

/-- The query feeding the sync:
`SELECT * FROM appointments WHERE status = 'scheduled' AND google_event_id IS NOT NULL`. -/
def getScheduledWithEvent (db : List Appt) : List Appt :=
  db.filter (fun a => a.status = "scheduled" && a.google_event_id.isSome)

/-- `dbAppointmentMap`: event id → appointment, skipping falsy ids
(`if (appointment.google_event_id)` excludes `""`). -/
def dbAppointmentMap (db : List Appt) : List (String × Appt) :=
  (getScheduledWithEvent db).foldl
    (fun m a =>
      match a.google_event_id with
      | some eid => if eid = "" then m else mapSet m eid a
      | none => m)
    []

/-- `calendarEventMap`: event id → event. -/
def calendarEventMap (events : List CalEvent) : List (String × CalEvent) :=
  events.foldl (fun m e => mapSet m e.id e) []

/-- The key under which the loop of `syncAppointments` registers an
appointment in `dbAppointmentMap` (`none` when the record is skipped by the
falsy-id check). -/
def syncKey (a : Appt) : Option String :=
  match a.google_event_id with
  | some eid => if eid = "" then none else some eid
  | none => none

/-- `hoursSinceCreation`: `moment().diff(created_at, 'hours')` — the
difference truncated to whole hours. -/
def hoursSinceCreation (nowMs created : Nat) : Nat :=
  (nowMs - created) / 3600000

/-- The discrepancy lists accumulated by `syncAppointments`. -/
structure SyncPlan where
  toCreateInCalendar : List Appt
  toUpdateInCalendar : List (Appt × CalEvent)
  toDeleteInCalendar : List String
  toUpdateInDb : List Appt
  toDeleteInDb : List Appt
deriving Repr

/-- One loop entry's contribution to `toCreateInCalendar`: event missing
from the calendar and the appointment created within the last 24 hours
(`hoursSinceCreation <= 24`). -/
def entryCreates (bMap : List (String × CalEvent)) (nowMs : Nat)
    (p : String × Appt) : List Appt :=
  match mapGet bMap p.1 with
  | none => if hoursSinceCreation nowMs p.2.created_at ≤ 24 then [p.2] else []
  | some _ => []

/-- One loop entry's contribution to `toUpdateInCalendar`: event present and
the two instants (`moment.tz(date+time, TZ)` vs `moment(event.start)`)
differ (`!dbDateTime.isSame(calendarDateTime)`). -/
def entryUpdates (tzI : String → String → Int) (parseI : String → Int)
    (bMap : List (String × CalEvent)) (p : String × Appt) :
    List (Appt × CalEvent) :=
  match mapGet bMap p.1 with
  | none => []
  | some e =>
    if tzI p.2.appointment_date p.2.appointment_time = parseI e.start then []
    else [(p.2, e)]

/-- The diff-computation loop of `syncAppointments`: one pass over
`dbAppointmentMap`, pushing into `toCreateInCalendar` and
`toUpdateInCalendar`; orphans (events not in the map) are only logged, and
`toDeleteInCalendar`, `toUpdateInDb`, `toDeleteInDb` stay empty. -/
def computeSyncPlan (tzI : String → String → Int) (parseI : String → Int)
    (nowMs : Nat) (db : List Appt) (events : List CalEvent) : SyncPlan :=
  let aMap := dbAppointmentMap db
  let bMap := calendarEventMap events
  let (tc, tu) := aMap.foldl
    (fun s p => (s.1 ++ entryCreates bMap nowMs p,
                 s.2 ++ entryUpdates tzI parseI bMap p))
    ([], [])
  { toCreateInCalendar := tc
    toUpdateInCalendar := tu
    toDeleteInCalendar := []
    toUpdateInDb := []
    toDeleteInDb := [] }

/-- The event payload `createAppointment`/`updateAppointment` builds from an
appointment's current date/time (start string, duration encoded in end). -/
def mkStart (a : Appt) : String :=
  a.appointment_date ++ "T" ++ a.appointment_time ++ ":00"

/-- `applySyncFixes` (success path): recreate missing events (writing each
new event id back to its record), push mismatched local times to the
calendar, then run the (always empty) delete/db-update/db-delete loops.
Returns the new table, the new calendar, and the list of `updateAppointment`
calls issued as (event id, appointment) pairs.  `freshIds` supplies the ids
the provider assigns to newly created events, in order. -/
def applySyncFixes (plan : SyncPlan) (db : List Appt) (cal : List CalEvent)
    (freshIds : List String) :
    List Appt × List CalEvent × List (String × Appt) :=
  let (db1, cal1) := plan.toCreateInCalendar.enum.foldl
    (fun s x =>
      (s.1.map (fun b =>
         if b.id = x.2.id then
           { b with google_event_id := some (freshIds.getD x.1 "") }
         else b),
       s.2 ++ [{ id := freshIds.getD x.1 "", start := mkStart x.2 }]))
    (db, cal)
  let (cal2, calls) := plan.toUpdateInCalendar.foldl
    (fun s x =>
      (s.1.map (fun ev =>
         if ev.id = x.2.id then { ev with start := mkStart x.1 } else ev),
       s.2 ++ [(x.2.id, x.1)]))
    (cal1, [])
  let cal3 := plan.toDeleteInCalendar.foldl
    (fun c eid => c.filter (fun ev => ev.id ≠ eid)) cal2
  let db3 := plan.toDeleteInDb.foldl
    (fun d a => d.map (fun b =>
       if b.id = a.id then { b with status := "cancelled" } else b))
    db1
  (db3, cal3, calls)

/-- The reconciliation body of `syncAppointments` (after the gate): compute
the plan from the two stores and apply it. -/
def syncCore (tzI : String → String → Int) (parseI : String → Int)
    (nowMs : Nat) (db : List Appt) (events : List CalEvent)
    (freshIds : List String) :
    List Appt × List CalEvent × List (String × Appt) :=
  applySyncFixes (computeSyncPlan tzI parseI nowMs db events) db events
    freshIds

/-- Result of a gated sync entry point. -/
structure SyncOutcome where
  mgr : SimpleSyncManager
  db : List Appt
  cal : List CalEvent
  ran : Bool
  updateCalls : List (String × Appt)
deriving Repr

/-- `syncAppointments`: `if (!syncManager.start()) return;` then the
reconciliation, with `syncManager.stop()` in the `finally` — executed on
the early-return path too. -/
def syncAppointmentsRun (tzI : String → String → Int)
    (parseI : String → Int) (mgr : SimpleSyncManager) (nowMs : Nat)
    (db : List Appt) (cal : List CalEvent) (freshIds : List String) :
    SyncOutcome :=
  let (ok, m1) := mgr.start nowMs
  if ok then
    let r := syncCore tzI parseI nowMs db cal freshIds
    { mgr := m1.stop, db := r.1, cal := r.2.1, ran := true,
      updateCalls := r.2.2 }
  else
    { mgr := m1.stop, db := db, cal := cal, ran := false, updateCalls := [] }

/-- `validateAppointmentData` (success path): for each scheduled appointment
with a null/empty event id, create a calendar event and write the id back. -/
def validateAppointmentData (db : List Appt) (cal : List CalEvent)
    (freshIds : List String) : List Appt × List CalEvent :=
  let orphaned := db.filter (fun a =>
    a.status = "scheduled" &&
    (a.google_event_id = none || a.google_event_id = some ""))
  orphaned.enum.foldl
    (fun s x =>
      let nid := freshIds.getD x.1 ""
      (s.1.map (fun b =>
         if b.id = x.2.id then { b with google_event_id := some nid } else b),
       s.2 ++ [{ id := nid, start := mkStart x.2 }]))
    (db, cal)

/-- `retryFailedAppointmentSyncs` (success path): same query and the same
state effect as `validateAppointmentData` (it calls `createEvent` with an
explicitly built payload and writes the returned id back). -/
def retryFailedAppointmentSyncs (db : List Appt) (cal : List CalEvent)
    (freshIds : List String) : List Appt × List CalEvent :=
  let failed := db.filter (fun a =>
    (a.google_event_id = none || a.google_event_id = some "") &&
    a.status = "scheduled")
  failed.enum.foldl
    (fun s x =>
      let nid := freshIds.getD x.1 ""
      (s.1.map (fun b =>
         if b.id = x.2.id then { b with google_event_id := some nid } else b),
       s.2 ++ [{ id := nid, start := mkStart x.2 }]))
    (db, cal)

/-- `cleanupOldData` restricted to the appointments table: completed or
cancelled appointments created more than 30 days ago become archived.  (The
conversation-state cleanup touches a table outside this model.) -/
def cleanupOldData (nowMs : Nat) (db : List Appt) : List Appt :=
  db.map (fun a =>
    if (a.status = "completed" || a.status = "cancelled") &&
        a.created_at < nowMs - 30 * 24 * 3600000 then
      { a with status := "archived" }
    else a)

/-- Result of `performFullSync`. -/
structure FullSyncOutcome where
  mgr : SimpleSyncManager
  db : List Appt
  cal : List CalEvent
  gateAcquired : Bool
  reconRan : Bool
deriving Repr

/-- `performFullSync`: gate via the same singleton `syncManager`, then
validate → `syncAppointments` (which re-enters the gate) → retry → cleanup,
with `syncManager.stop()` in the `finally`.  `reconRan` records whether the
nested `syncAppointments` actually ran its reconciliation. -/
def performFullSync (tzI : String → String → Int) (parseI : String → Int)
    (mgr : SimpleSyncManager) (now1 now2 : Nat) (db : List Appt)
    (cal : List CalEvent) (fv fs fr : List String) : FullSyncOutcome :=
  let (ok, m1) := mgr.start now1
  if ok then
    let v := validateAppointmentData db cal fv
    let so := syncAppointmentsRun tzI parseI m1 now2 v.1 v.2 fs
    let rr := retryFailedAppointmentSyncs so.db so.cal fr
    let db3 := cleanupOldData now2 rr.1
    { mgr := so.mgr.stop, db := db3, cal := rr.2, gateAcquired := true,
      reconRan := so.ran }
  else
    { mgr := m1.stop, db := db, cal := cal, gateAcquired := false,
      reconRan := false }

/-! ### Deduplication sweeps (maintenance.js) -/

/-- Helper for `firstOccur`: emit elements not yet seen. -/
def firstOccurAux {α : Type} [DecidableEq α] : List α → List α → List α
  | [], _ => []
  | a :: l, seen =>
    if seen.contains a then firstOccurAux l seen
    else a :: firstOccurAux l (a :: seen)

/-- Keep the first occurrence of each element (the distinct keys a SQL
`GROUP BY` / a JS object's insertion-ordered keys produce). -/
def firstOccur {α : Type} [DecidableEq α] (l : List α) : List α :=
  firstOccurAux l []

/-- `checkDbDuplicates`: the (phone, date, time) groups with more than one
appointment of active status
(`GROUP BY patient_phone, appointment_date, appointment_time HAVING COUNT(*) > 1`
over `WHERE status IN ('scheduled','confirmed','pending')`). -/
def checkDbDuplicates (db : List Appt) : List (String × String × String) :=
  (firstOccur ((db.filter (fun a => isActive a.status)).map slotKey)).filter
    (fun k =>
      (db.filter (fun a => isActive a.status && slotKey a = k)).length > 1)

/-- `ORDER BY created_at ASC` on appointments. -/
def createdLE (a b : Appt) : Prop := a.created_at ≤ b.created_at

instance : DecidableRel createdLE := fun a b =>
  Nat.decLe a.created_at b.created_at

instance : IsTotal Appt createdLE := ⟨fun _ _ => Nat.le_total _ _⟩

instance : IsTrans Appt createdLE := ⟨fun _ _ _ => Nat.le_trans⟩

/-- The per-group record query of `cleanDbDuplicates`:
`SELECT id FROM appointments WHERE patient_phone = ? AND appointment_date =
? AND appointment_time = ? ORDER BY created_at ASC` — note: no status
filter. -/
def sortSlot (db : List Appt) (k : String × String × String) : List Appt :=
  List.insertionSort createdLE (db.filter (fun a => slotKey a = k))

/-- The per-group body of `cleanDbDuplicates`: re-query the slot ordered by
`created_at`, keep the first record and `DELETE` the rest by id. -/
def cleanGroup (db : List Appt) (k : String × String × String) :
    List Appt :=
  db.filter (fun a => !(((sortSlot db k).drop 1).map Appt.id).contains a.id)

/-- `cleanDbDuplicates`: compute the duplicate groups once, then clean each
group in turn. -/
def cleanDbDuplicates (db : List Appt) : List Appt :=
  (checkDbDuplicates db).foldl cleanGroup db

/-- Characters before the first `'T'` (`split('T')[0]`). -/
def takeUntilT : List Char → List Char
  | [] => []
  | c :: cs => if c = 'T' then [] else c :: takeUntilT cs

/-- Characters after the first `'T'`. -/
def dropPastT : List Char → List Char
  | [] => []
  | c :: cs => if c = 'T' then cs else dropPastT cs

/-- The `${date}_${time}` key of an event
(`event.start.split('T')[0]` and `split('T')[1].substring(0, 5)`). -/
def eventSlotKey (e : CalEvent) : String :=
  let cs := e.start.toList
  String.mk (takeUntilT cs) ++ "_" ++
    String.mk ((takeUntilT (dropPastT cs)).take 5)

/-- The valid event ids of `cleanCalendarDuplicates`:
`SELECT google_event_id FROM appointments WHERE status = 'scheduled' AND
google_event_id IS NOT NULL`. -/
def validEventIds (db : List Appt) : List String :=
  (db.filter (fun a => a.status = "scheduled" && a.google_event_id.isSome)).filterMap
    (fun a => a.google_event_id)

/-- `cancelAppointment`, as issued against the live calendar: a Google
`events.delete` of an id that no longer exists fails, and
`cancelAppointment` rethrows the error. -/
def cancelAppointment (cal : List CalEvent) (eid : String) :
    Option (List CalEvent) :=
  if cal.any (fun e => e.id = eid) then
    some (cal.filter (fun e => e.id ≠ eid))
  else none

/-- Sequential per-event deletes; the boolean is false when a delete failed,
in which case the remaining ids are not attempted. -/
def deleteSeq : List String → List CalEvent → Nat →
    List CalEvent × Nat × Bool
  | [], cal, n => (cal, n, true)
  | eid :: rest, cal, n =>
    match cancelAppointment cal eid with
    | some cal2 => deleteSeq rest cal2 (n + 1)
    | none => (cal, n, false)

/-- The ids a slot group's processing deletes: with at least one valid event,
all invalid events then every valid event after the first; with none, every
event after the first (in listing order). -/
def groupDeletions (validIds : List String) (slotEvents : List CalEvent) :
    List String :=
  let validEvents := slotEvents.filter (fun e => validIds.contains e.id)
  let invalidEvents := slotEvents.filter (fun e => !validIds.contains e.id)
  if validEvents.length > 0 then
    invalidEvents.map (fun e => e.id) ++
      (validEvents.drop 1).map (fun e => e.id)
  else
    (slotEvents.drop 1).map (fun e => e.id)

/-- The group loop of `cleanCalendarDuplicates` over the slot keys of the
listing snapshot: groups with at most one event are skipped; a failed delete
aborts the loop (there is no per-event catch). -/
def processSlots (validIds : List String) (snapshot : List CalEvent) :
    List String → List CalEvent → Nat → List CalEvent × Nat × Bool
  | [], cal, n => (cal, n, true)
  | k :: ks, cal, n =>
    let slotEvents := snapshot.filter (fun e => eventSlotKey e = k)
    if slotEvents.length ≤ 1 then processSlots validIds snapshot ks cal n
    else
      match deleteSeq (groupDeletions validIds slotEvents) cal n with
      | (cal2, n2, true) => processSlots validIds snapshot ks cal2 n2
      | (cal2, n2, false) => (cal2, n2, false)

/-- `cleanCalendarDuplicates`: group the listing `snapshot` by time slot,
delete duplicates against the live calendar `cal`; any error is caught at
the function level and turned into a return value of `0`. -/
def cleanCalendarDuplicates (db : List Appt) (snapshot : List CalEvent)
    (cal : List CalEvent) : Nat × List CalEvent × Bool :=
  let keys := firstOccur (snapshot.map eventSlotKey)
  let r := processSlots (validEventIds db) snapshot keys cal 0
  if r.2.2 then (r.2.1, r.1, true) else (0, r.1, false)

/-! ### Helper lemmas -/

theorem start_fst_true_iff (m : SimpleSyncManager) (now : Nat) :
    (m.start now).1 = true ↔ m.canRun now = true := by
  unfold SimpleSyncManager.start
  by_cases h : m.canRun now = true <;> simp [h]

theorem start_snd_of_true (m : SimpleSyncManager) (now : Nat)
    (h : (m.start now).1 = true) :
    (m.start now).2 = { isRunning := true, lastRun := now } := by
  unfold SimpleSyncManager.start at h ⊢
  by_cases hc : m.canRun now = true <;> simp [hc] at h ⊢

theorem canRun_of_running (m : SimpleSyncManager) (now : Nat)
    (h : m.isRunning = true) : m.canRun now = false := by
  unfold SimpleSyncManager.canRun
  simp [h]

theorem syncAppointmentsRun_not_ran_of_running (tzI : String → String → Int)
    (parseI : String → Int) (m : SimpleSyncManager) (nowMs : Nat)
    (db : List Appt) (cal : List CalEvent) (fs : List String)
    (h : m.isRunning = true) :
    (syncAppointmentsRun tzI parseI m nowMs db cal fs).ran = false := by
  unfold syncAppointmentsRun
  have hs : m.start nowMs = (false, m) := by
    unfold SimpleSyncManager.start
    simp [canRun_of_running m nowMs h]
  simp [hs]

/-! ### Claim theorems -/

/-- C7: the coordinator's `start()` returns false, without modifying the
state, when a sync is running or when `now - lastRun` is below the minimum
interval of 5 minutes; otherwise it sets `isRunning`, records `lastRun =
now` and returns true; `stop()` unconditionally clears `isRunning`. -/
theorem C7_coordinator_start_stop :
    ∀ (m : SimpleSyncManager) (now : Nat),
      minInterval = 5 * 60 * 1000 ∧
      m.start now =
        (if m.isRunning then (false, m)
         else if now - m.lastRun < minInterval then (false, m)
         else (true, { isRunning := true, lastRun := now })) ∧
      m.stop.isRunning = false := by
  intro m now
  refine ⟨rfl, ?_, rfl⟩
  unfold SimpleSyncManager.start SimpleSyncManager.canRun
  by_cases h1 : m.isRunning <;>
    by_cases h2 : now - m.lastRun < minInterval <;> simp [h1, h2]

/-- C9: `syncAppointments` and `performFullSync` run the coordinator's
`stop()` in a `finally` on every return path — including the path where
their own `start()` returned false — so after either call returns the
`isRunning` flag is false, even when another sync acquired the gate and is
still in progress. -/
theorem C9_stop_on_every_return_path :
    ∀ (tzI : String → String → Int) (parseI : String → Int)
      (m : SimpleSyncManager) (now1 now2 : Nat) (db : List Appt)
      (cal : List CalEvent) (fv fs fr : List String),
      (syncAppointmentsRun tzI parseI m now1 db cal fs).mgr.isRunning =
        false ∧
      (performFullSync tzI parseI m now1 now2 db cal fv fs fr).mgr.isRunning =
        false := by
  intro tzI parseI m now1 now2 db cal fv fs fr
  constructor
  · unfold syncAppointmentsRun
    rcases m.start now1 with ⟨ok, m1⟩
    cases ok <;> rfl
  · unfold performFullSync
    rcases h : m.start now1 with ⟨ok, m1⟩
    cases ok <;> rfl

/-- C2 (code bug): `performFullSync` gates itself through the singleton
coordinator and then calls `syncAppointments`, which re-enters the same
gate; the nested `start()` sees `isRunning = true` and returns false, so the
reconciliation (reading both stores, computing the diff, applying fixes)
never runs inside a gated full sync — even though the gate was acquired. -/
theorem C2_performFullSync_never_runs_reconciliation :
    (∀ (tzI : String → String → Int) (parseI : String → Int)
       (m : SimpleSyncManager) (now1 now2 : Nat) (db : List Appt)
       (cal : List CalEvent) (fv fs fr : List String),
       (performFullSync tzI parseI m now1 now2 db cal fv fs fr).reconRan =
         false) ∧
    (performFullSync (fun _ _ => 0) (fun _ => 0) ⟨false, 0⟩
       1000000000 1000000001 [] [] [] [] []).gateAcquired = true := by
  constructor
  · intro tzI parseI m now1 now2 db cal fv fs fr
    unfold performFullSync
    rcases h : m.start now1 with ⟨ok, m1⟩
    cases ok
    · rfl
    · have h1 : (m.start now1).1 = true := by rw [h]
      have h2 := start_snd_of_true m now1 h1
      rw [h] at h2
      have h3 : m1 = { isRunning := true, lastRun := now1 } := h2
      have : m1.isRunning = true := by rw [h3]
      simpa using syncAppointmentsRun_not_ran_of_running tzI parseI m1 now2
        (validateAppointmentData db cal fv).1
        (validateAppointmentData db cal fv).2 fs this
  · decide

/-- C1 (code bug): two booking attempts for the same slot interleaved at the
await point between the duplicate SELECT and the INSERT both insert: the
check-then-insert is not serialized (the `idx_appointments_unique_slot`
index is created with `CREATE INDEX`, not `CREATE UNIQUE INDEX`), so the
store ends with two active appointments for one (phone, date, time) triple;
the same two attempts run sequentially leave exactly one. -/
theorem C1_concurrent_saveAppointment_inserts_twice :
    countActiveAt
      (raceSaveAppointment []
        ⟨"9876543210", "Ravi", "2025-04-10", "09:00", 30, none, "scheduled"⟩
        ⟨"9876543210", "Ravi", "2025-04-10", "09:00", 30, none, "scheduled"⟩
        1 2 1000 1001)
      "9876543210" "2025-04-10" "09:00" = 2 ∧
    countActiveAt
      (saveAppointment
        (saveAppointment []
          ⟨"9876543210", "Ravi", "2025-04-10", "09:00", 30, none,
            "scheduled"⟩ 1 1000).2
        ⟨"9876543210", "Ravi", "2025-04-10", "09:00", 30, none, "scheduled"⟩
        2 1001).2
      "9876543210" "2025-04-10" "09:00" = 1 := by
  decide

/-- C3 (code bug): the drift-recreation window is computed as
`moment().diff(created_at, 'hours') <= 24`, which truncates the age to whole
hours: an appointment created 24 h 01 min (86 460 000 ms) before the pass
has `hoursSinceCreation = 24`, passes the check, and is recreated with the
new event id written back — while the spec says only appointments created
within the last 24 hours are recreated.  (A 23 h 59 min-old appointment is
also recreated, as the spec says.) -/
theorem C3_recreates_appointment_older_than_24h :
    hoursSinceCreation 1000000000 (1000000000 - 86460000) = 24 ∧
    (computeSyncPlan (fun _ _ => 0) (fun _ => 0) 1000000000
      [⟨7, "9876543210", "P", "2025-04-10", "09:00", 30, "scheduled",
        some "evt-1", 1000000000 - 86460000⟩] []).toCreateInCalendar =
      [⟨7, "9876543210", "P", "2025-04-10", "09:00", 30, "scheduled",
        some "evt-1", 1000000000 - 86460000⟩] ∧
    (syncCore (fun _ _ => 0) (fun _ => 0) 1000000000
      [⟨7, "9876543210", "P", "2025-04-10", "09:00", 30, "scheduled",
        some "evt-1", 1000000000 - 86460000⟩] [] ["new-1"]).1 =
      [⟨7, "9876543210", "P", "2025-04-10", "09:00", 30, "scheduled",
        some "new-1", 1000000000 - 86460000⟩] ∧
    hoursSinceCreation 1000000000 (1000000000 - 86340000) = 23 := by
  decide

/-! ### Lemmas on `firstOccur` and the store sweep -/

theorem mem_firstOccurAux {α : Type} [DecidableEq α] (l : List α) :
    ∀ (seen : List α) (x : α),
      x ∈ firstOccurAux l seen ↔ x ∈ l ∧ x ∉ seen := by
  induction l with
  | nil => intro seen x; simp [firstOccurAux]
  | cons a l ih =>
    intro seen x
    by_cases h : a ∈ seen
    · have hc : seen.contains a = true := by simpa using h
      rw [firstOccurAux, if_pos hc, ih]
      constructor
      · rintro ⟨hx, hs⟩
        exact ⟨List.mem_cons_of_mem _ hx, hs⟩
      · rintro ⟨hx, hs⟩
        rcases List.mem_cons.mp hx with rfl | hx2
        · exact absurd h hs
        · exact ⟨hx2, hs⟩
    · have hc : ¬seen.contains a = true := by simpa using h
      rw [firstOccurAux, if_neg hc]
      constructor
      · intro hx
        rcases List.mem_cons.mp hx with rfl | hx2
        · exact ⟨List.mem_cons_self _ _, h⟩
        · rcases (ih _ _).mp hx2 with ⟨hl, hns⟩
          exact ⟨List.mem_cons_of_mem _ hl,
            fun hmem => hns (List.mem_cons_of_mem _ hmem)⟩
      · rintro ⟨hx, hs⟩
        by_cases hxa : x = a
        · subst hxa; exact List.mem_cons_self _ _
        · rcases List.mem_cons.mp hx with rfl | hx2
          · exact absurd rfl hxa
          · refine List.mem_cons_of_mem _ ((ih _ _).mpr ⟨hx2, ?_⟩)
            intro hmem
            rcases List.mem_cons.mp hmem with rfl | hmem2
            · exact hxa rfl
            · exact hs hmem2

theorem nodup_firstOccurAux {α : Type} [DecidableEq α] (l : List α) :
    ∀ seen : List α, (firstOccurAux l seen).Nodup := by
  induction l with
  | nil => intro seen; simp [firstOccurAux]
  | cons a l ih =>
    intro seen
    by_cases h : a ∈ seen
    · have hc : seen.contains a = true := by simpa using h
      rw [firstOccurAux, if_pos hc]; exact ih seen
    · have hc : ¬seen.contains a = true := by simpa using h
      rw [firstOccurAux, if_neg hc]
      refine List.nodup_cons.mpr ⟨?_, ih _⟩
      intro hmem
      exact ((mem_firstOccurAux l _ a).mp hmem).2 (List.mem_cons_self _ _)

theorem mem_firstOccur {α : Type} [DecidableEq α] (l : List α) (x : α) :
    x ∈ firstOccur l ↔ x ∈ l := by
  unfold firstOccur
  rw [mem_firstOccurAux]
  simp

theorem nodup_firstOccur {α : Type} [DecidableEq α] (l : List α) :
    (firstOccur l).Nodup := nodup_firstOccurAux l []

theorem mem_checkDbDuplicates (db : List Appt)
    (k : String × String × String) :
    k ∈ checkDbDuplicates db ↔
      (db.filter (fun a => isActive a.status && slotKey a = k)).length > 1 := by
  unfold checkDbDuplicates
  rw [List.mem_filter]
  constructor
  · rintro ⟨_, h⟩
    simpa using h
  · intro h
    refine ⟨?_, by simpa using h⟩
    rw [mem_firstOccur]
    have hne : (db.filter (fun a => isActive a.status && slotKey a = k)) ≠ [] := by
      intro he
      rw [he] at h
      simp at h
    rcases List.exists_mem_of_ne_nil _ hne with ⟨a, ha⟩
    rw [List.mem_filter] at ha
    have hcond : isActive a.status = true ∧ slotKey a = k := by
      simpa using ha.2
    rw [List.mem_map]
    exact ⟨a, List.mem_filter.mpr ⟨ha.1, hcond.1⟩, hcond.2⟩

theorem appt_id_inj {db : List Appt} (hid : (db.map Appt.id).Nodup)
    {a b : Appt} (ha : a ∈ db) (hb : b ∈ db) (h : a.id = b.id) : a = b :=
  List.inj_on_of_nodup_map hid ha hb h

theorem sortSlot_perm (db : List Appt) (k : String × String × String) :
    List.Perm (sortSlot db k) (db.filter (fun a => slotKey a = k)) :=
  List.perm_insertionSort _ _

theorem mem_sortSlot {db : List Appt} {k : String × String × String}
    {a : Appt} : a ∈ sortSlot db k ↔ a ∈ db ∧ slotKey a = k := by
  rw [(sortSlot_perm db k).mem_iff, List.mem_filter]
  simp

theorem sortSlot_head_mem {db : List Appt} {k : String × String × String}
    {m : Appt} (h : (sortSlot db k).head? = some m) :
    m ∈ db ∧ slotKey m = k := by
  have hm : m ∈ sortSlot db k := by
    rcases hs : sortSlot db k with _ | ⟨h0, t⟩
    · rw [hs] at h; simp at h
    · rw [hs] at h
      have : h0 = m := by simpa using h
      subst this
      exact List.mem_cons_self _ _
  exact mem_sortSlot.mp hm

theorem sortSlot_head_min {db : List Appt} {k : String × String × String}
    {m : Appt} (h : (sortSlot db k).head? = some m) :
    ∀ b ∈ db, slotKey b = k → m.created_at ≤ b.created_at := by
  intro b hb hbk
  have hmem : b ∈ sortSlot db k := mem_sortSlot.mpr ⟨hb, hbk⟩
  have hsort : List.Sorted createdLE (sortSlot db k) :=
    List.sorted_insertionSort _ _
  rcases hs : sortSlot db k with _ | ⟨h0, t⟩
  · rw [hs] at hmem; simp at hmem
  · rw [hs] at hmem hsort h
    have hh0 : h0 = m := by simpa using h
    subst hh0
    rcases List.mem_cons.mp hmem with rfl | hmem2
    · exact Nat.le_refl _
    · exact List.rel_of_sorted_cons hsort b hmem2

theorem sortSlot_head_some {db : List Appt} {k : String × String × String}
    {a : Appt} (ha : a ∈ db) (hk : slotKey a = k) :
    ∃ m, (sortSlot db k).head? = some m := by
  have hmem : a ∈ sortSlot db k := mem_sortSlot.mpr ⟨ha, hk⟩
  rcases hs : sortSlot db k with _ | ⟨h0, t⟩
  · rw [hs] at hmem; simp at hmem
  · exact ⟨h0, by simp [hs]⟩

theorem sortSlot_nodup {db : List Appt} (hdb : db.Nodup)
    (k : String × String × String) : (sortSlot db k).Nodup :=
  (sortSlot_perm db k).nodup_iff.mpr (hdb.filter _)

theorem not_mem_toDelete_of_slot_ne {db : List Appt}
    (hid : (db.map Appt.id).Nodup) {k : String × String × String}
    {a : Appt} (ha : a ∈ db) (hk : slotKey a ≠ k) :
    a.id ∉ ((sortSlot db k).drop 1).map Appt.id := by
  intro hcontra
  rcases List.mem_map.mp hcontra with ⟨b, hb, hbid⟩
  have hbmem : b ∈ sortSlot db k := List.mem_of_mem_drop hb
  rcases mem_sortSlot.mp hbmem with ⟨hbdb, hbk⟩
  have hba : b = a := appt_id_inj hid hbdb ha hbid
  exact hk (hba ▸ hbk)

theorem mem_cleanGroup {db : List Appt} (hid : (db.map Appt.id).Nodup)
    {k : String × String × String} {a : Appt} :
    a ∈ cleanGroup db k ↔
      a ∈ db ∧ (slotKey a = k → (sortSlot db k).head? = some a) := by
  have hdb : db.Nodup := List.Nodup.of_map _ hid
  unfold cleanGroup
  rw [List.mem_filter]
  have hcond : ∀ x : Appt,
      ((!(((sortSlot db k).drop 1).map Appt.id).contains x.id) = true) ↔
        x.id ∉ ((sortSlot db k).drop 1).map Appt.id := by
    intro x; simp
  constructor
  · rintro ⟨hadb, hc⟩
    rw [hcond] at hc
    refine ⟨hadb, fun hk => ?_⟩
    have hmem : a ∈ sortSlot db k := mem_sortSlot.mpr ⟨hadb, hk⟩
    rcases hs : sortSlot db k with _ | ⟨h0, t⟩
    · rw [hs] at hmem; simp at hmem
    · rw [hs] at hmem hc
      simp only [List.drop_succ_cons, List.drop_zero] at hc
      rcases List.mem_cons.mp hmem with rfl | hmem2
      · rfl
      · exact absurd (List.mem_map.mpr ⟨a, hmem2, rfl⟩) hc
  · rintro ⟨hadb, himp⟩
    refine ⟨hadb, ?_⟩
    rw [hcond]
    by_cases hk : slotKey a = k
    · have hhead := himp hk
      intro hcontra
      rcases List.mem_map.mp hcontra with ⟨b, hb, hbid⟩
      have hbmem : b ∈ sortSlot db k := List.mem_of_mem_drop hb
      have hbdb : b ∈ db := (mem_sortSlot.mp hbmem).1
      have hba : b = a := appt_id_inj hid hbdb hadb hbid
      have hnod : (sortSlot db k).Nodup := sortSlot_nodup hdb k
      rcases hs : sortSlot db k with _ | ⟨h0, t⟩
      · rw [hs] at hbmem; simp at hbmem
      · rw [hs] at hhead hb hnod
        have hh0 : h0 = a := by simpa using hhead
        simp only [List.drop_succ_cons, List.drop_zero] at hb
        rw [hba, ← hh0] at hb
        exact (List.nodup_cons.mp hnod).1 hb
    · exact not_mem_toDelete_of_slot_ne hid hadb hk

theorem cleanGroup_sublist (db : List Appt) (k : String × String × String) :
    List.Sublist (cleanGroup db k) db :=
  List.filter_sublist _

theorem cleanGroup_id_nodup {db : List Appt}
    (hid : (db.map Appt.id).Nodup) (k : String × String × String) :
    ((cleanGroup db k).map Appt.id).Nodup :=
  List.Nodup.sublist (List.Sublist.map _ (cleanGroup_sublist db k)) hid

theorem cleanGroup_filter_ne {db : List Appt}
    (hid : (db.map Appt.id).Nodup) {k kp : String × String × String}
    (hne : kp ≠ k) :
    (cleanGroup db k).filter (fun a => slotKey a = kp) =
      db.filter (fun a => slotKey a = kp) := by
  unfold cleanGroup
  rw [List.filter_filter]
  apply List.filter_congr
  intro a ha
  by_cases hk : slotKey a = kp
  · have hnotin : a.id ∉ ((sortSlot db k).drop 1).map Appt.id :=
      not_mem_toDelete_of_slot_ne hid ha (by rw [hk]; exact hne)
    rw [show (!(((sortSlot db k).drop 1).map Appt.id).contains a.id) = true
      from by simpa using hnotin]
    simp [hk]
  · simp [hk]

theorem sortSlot_cleanGroup_ne {db : List Appt}
    (hid : (db.map Appt.id).Nodup) {k kp : String × String × String}
    (hne : kp ≠ k) : sortSlot (cleanGroup db k) kp = sortSlot db kp := by
  unfold sortSlot
  rw [cleanGroup_filter_ne hid hne]

theorem foldl_cleanGroup_mem :
    ∀ (K : List (String × String × String)) (db : List Appt),
      (db.map Appt.id).Nodup → K.Nodup → ∀ a : Appt,
      a ∈ K.foldl cleanGroup db ↔
        a ∈ db ∧ ∀ k ∈ K, slotKey a = k →
          (sortSlot db k).head? = some a := by
  intro K
  induction K with
  | nil => intro db hid hK a; simp
  | cons k K ih =>
    intro db hid hK a
    rw [List.foldl_cons,
      ih (cleanGroup db k) (cleanGroup_id_nodup hid k)
        (List.nodup_cons.mp hK).2 a,
      mem_cleanGroup hid]
    have hknotin : k ∉ K := (List.nodup_cons.mp hK).1
    constructor
    · rintro ⟨⟨hadb, hk1⟩, hrest⟩
      refine ⟨hadb, ?_⟩
      intro kp hkp hsl
      rcases List.mem_cons.mp hkp with rfl | hkp2
      · exact hk1 hsl
      · have hne : kp ≠ k := fun he => hknotin (he ▸ hkp2)
        have hh := hrest kp hkp2 hsl
        rwa [sortSlot_cleanGroup_ne hid hne] at hh
    · rintro ⟨hadb, hall⟩
      refine ⟨⟨hadb, fun hsl => hall k (List.mem_cons_self _ _) hsl⟩, ?_⟩
      intro kp hkp2 hsl
      have hne : kp ≠ k := fun he => hknotin (he ▸ hkp2)
      rw [sortSlot_cleanGroup_ne hid hne]
      exact hall kp (List.mem_cons_of_mem _ hkp2) hsl

theorem foldl_cleanGroup_sublist :
    ∀ (K : List (String × String × String)) (db : List Appt),
      List.Sublist (K.foldl cleanGroup db) db := by
  intro K
  induction K with
  | nil => intro db; simp
  | cons k K ih =>
    intro db
    rw [List.foldl_cons]
    exact (ih (cleanGroup db k)).trans (cleanGroup_sublist db k)

theorem eq_singleton_of_unique {α : Type} {l : List α} {m : α}
    (hnd : l.Nodup) (hm : m ∈ l) (hall : ∀ x ∈ l, x = m) : l = [m] := by
  rcases l with _ | ⟨x, t⟩
  · simp at hm
  · have hx : x = m := hall x (List.mem_cons_self _ _)
    subst hx
    rcases t with _ | ⟨y, tp⟩
    · rfl
    · have hy : y = x := hall y (List.mem_cons_of_mem _ (List.mem_cons_self _ _))
      subst hy
      exact absurd (List.mem_cons_self _ _) (List.nodup_cons.mp hnd).1

/-- C4 counterexample: with a cancelled record created before two active
(scheduled) duplicates at the same slot, the sweep keeps the cancelled
record (id 1) and deletes both active records — including the
earliest-created active one (id 2), which the claim says is kept; with the
cancelled record created last, the sweep deletes it (id 3) although it is
not a member of the active duplicate group. -/
theorem C4_counterexample :
    checkDbDuplicates
      [⟨1, "p", "n", "d", "t", 30, "cancelled", none, 10⟩,
       ⟨2, "p", "n", "d", "t", 30, "scheduled", none, 20⟩,
       ⟨3, "p", "n", "d", "t", 30, "scheduled", none, 30⟩] =
      [("p", "d", "t")] ∧
    (cleanDbDuplicates
      [⟨1, "p", "n", "d", "t", 30, "cancelled", none, 10⟩,
       ⟨2, "p", "n", "d", "t", 30, "scheduled", none, 20⟩,
       ⟨3, "p", "n", "d", "t", 30, "scheduled", none, 30⟩]).map Appt.id =
      [1] ∧
    (cleanDbDuplicates
      [⟨1, "p", "n", "d", "t", 30, "scheduled", none, 10⟩,
       ⟨2, "p", "n", "d", "t", 30, "scheduled", none, 20⟩,
       ⟨3, "p", "n", "d", "t", 30, "cancelled", none, 30⟩]).map Appt.id =
      [1] := by
  decide

/-- C4 (amended): for every (phone, date, time) group with more than one
active appointment, one store-sweep pass keeps exactly one appointment in
that slot — the earliest-created appointment of the slot across **all**
statuses (the per-group deletion query has no status filter) — deleting
every other appointment of the slot, active or not; appointments in slots
without such a group are never deleted, and the sweep adds nothing. -/
theorem C4_store_sweep_keeps_earliest_of_slot (db : List Appt)
    (hid : (db.map Appt.id).Nodup) :
    (∀ k ∈ checkDbDuplicates db, ∃ m, m ∈ db ∧ slotKey m = k ∧
      (∀ b ∈ db, slotKey b = k → m.created_at ≤ b.created_at) ∧
      (cleanDbDuplicates db).filter (fun a => slotKey a = k) = [m]) ∧
    (∀ a ∈ db, slotKey a ∉ checkDbDuplicates db →
      a ∈ cleanDbDuplicates db) ∧
    (∀ a ∈ cleanDbDuplicates db, a ∈ db) := by
  have hdb : db.Nodup := List.Nodup.of_map _ hid
  have hK : (checkDbDuplicates db).Nodup := by
    unfold checkDbDuplicates
    exact (nodup_firstOccur _).filter _
  have hmem := foldl_cleanGroup_mem (checkDbDuplicates db) db hid hK
  have hres : cleanDbDuplicates db =
      (checkDbDuplicates db).foldl cleanGroup db := rfl
  refine ⟨?_, ?_, ?_⟩
  · intro k hk
    have hcount := (mem_checkDbDuplicates db k).mp hk
    have hne :
        (db.filter (fun a => isActive a.status && slotKey a = k)) ≠ [] := by
      intro he
      rw [he] at hcount
      simp at hcount
    rcases List.exists_mem_of_ne_nil _ hne with ⟨a0, ha0⟩
    rw [List.mem_filter] at ha0
    have ha0c : isActive a0.status = true ∧ slotKey a0 = k := by
      simpa using ha0.2
    rcases sortSlot_head_some ha0.1 ha0c.2 with ⟨m, hmhead⟩
    rcases sortSlot_head_mem hmhead with ⟨hmdb, hmk⟩
    refine ⟨m, hmdb, hmk, sortSlot_head_min hmhead, ?_⟩
    rw [hres]
    apply eq_singleton_of_unique
    · exact (List.Nodup.sublist (foldl_cleanGroup_sublist _ db) hdb).filter _
    · rw [List.mem_filter]
      refine ⟨(hmem m).mpr ⟨hmdb, ?_⟩, by simpa using hmk⟩
      intro kp hkp hsl
      rw [hmk] at hsl
      rw [← hsl]
      exact hmhead
    · intro x hx
      rw [List.mem_filter] at hx
      have hx2 := (hmem x).mp hx.1
      have hxk : slotKey x = k := by simpa using hx.2
      have hxh := hx2.2 k hk hxk
      rw [hmhead] at hxh
      exact (Option.some.inj hxh).symm
  · intro a ha hnotin
    rw [hres]
    exact (hmem a).mpr ⟨ha, fun k hkK hsl =>
      absurd (show slotKey a ∈ checkDbDuplicates db by rw [hsl]; exact hkK)
        hnotin⟩
  · intro a ha
    rw [hres] at ha
    exact (foldl_cleanGroup_sublist _ db).subset ha

/-- Witness for C4 at a concrete store: two scheduled appointments at one
slot, ids distinct. -/
theorem C4_witness :
    (([⟨1, "p", "n", "d", "t", 30, "scheduled", none, 10⟩,
       ⟨2, "p", "n", "d", "t", 30, "scheduled", none, 20⟩] :
        List Appt).map Appt.id).Nodup ∧
    ((∀ k ∈ checkDbDuplicates
        [⟨1, "p", "n", "d", "t", 30, "scheduled", none, 10⟩,
         ⟨2, "p", "n", "d", "t", 30, "scheduled", none, 20⟩],
      ∃ m, m ∈ ([⟨1, "p", "n", "d", "t", 30, "scheduled", none, 10⟩,
         ⟨2, "p", "n", "d", "t", 30, "scheduled", none, 20⟩] : List Appt) ∧
        slotKey m = k ∧
        (∀ b ∈ ([⟨1, "p", "n", "d", "t", 30, "scheduled", none, 10⟩,
           ⟨2, "p", "n", "d", "t", 30, "scheduled", none, 20⟩] : List Appt),
          slotKey b = k → m.created_at ≤ b.created_at) ∧
        (cleanDbDuplicates
          [⟨1, "p", "n", "d", "t", 30, "scheduled", none, 10⟩,
           ⟨2, "p", "n", "d", "t", 30, "scheduled", none, 20⟩]).filter
          (fun a => slotKey a = k) = [m]) ∧
     (∀ a ∈ ([⟨1, "p", "n", "d", "t", 30, "scheduled", none, 10⟩,
        ⟨2, "p", "n", "d", "t", 30, "scheduled", none, 20⟩] : List Appt),
       slotKey a ∉ checkDbDuplicates
         [⟨1, "p", "n", "d", "t", 30, "scheduled", none, 10⟩,
          ⟨2, "p", "n", "d", "t", 30, "scheduled", none, 20⟩] →
       a ∈ cleanDbDuplicates
         [⟨1, "p", "n", "d", "t", 30, "scheduled", none, 10⟩,
          ⟨2, "p", "n", "d", "t", 30, "scheduled", none, 20⟩]) ∧
     (∀ a ∈ cleanDbDuplicates
        [⟨1, "p", "n", "d", "t", 30, "scheduled", none, 10⟩,
         ⟨2, "p", "n", "d", "t", 30, "scheduled", none, 20⟩],
       a ∈ ([⟨1, "p", "n", "d", "t", 30, "scheduled", none, 10⟩,
         ⟨2, "p", "n", "d", "t", 30, "scheduled", none, 20⟩] : List Appt))) :=
  ⟨by decide, C4_store_sweep_keeps_earliest_of_slot _ (by decide)⟩

/-! ### Lemmas on the calendar sweep -/

theorem calevent_id_inj {l : List CalEvent}
    (hid : (l.map CalEvent.id).Nodup) {a b : CalEvent} (ha : a ∈ l)
    (hb : b ∈ l) (h : a.id = b.id) : a = b :=
  List.inj_on_of_nodup_map hid ha hb h

theorem mem_validEventIds (db : List Appt) (i : String) :
    i ∈ validEventIds db ↔
      ∃ a ∈ db, a.status = "scheduled" ∧ a.google_event_id = some i := by
  unfold validEventIds
  rw [List.mem_filterMap]
  constructor
  · rintro ⟨a, ha, hgei⟩
    rw [List.mem_filter] at ha
    have hc : a.status = "scheduled" ∧ a.google_event_id.isSome := by
      simpa using ha.2
    exact ⟨a, ha.1, hc.1, hgei⟩
  · rintro ⟨a, ha, hst, hgei⟩
    refine ⟨a, List.mem_filter.mpr ⟨ha, ?_⟩, hgei⟩
    simp [hst, hgei]

theorem groupDeletions_ids_sub {validIds : List String}
    {g : List CalEvent} {i : String} (h : i ∈ groupDeletions validIds g) :
    ∃ e ∈ g, e.id = i := by
  unfold groupDeletions at h
  by_cases hv : (g.filter (fun e => validIds.contains e.id)).length > 0
  · rw [if_pos hv] at h
    rcases List.mem_append.mp h with h1 | h2
    · rcases List.mem_map.mp h1 with ⟨e, he, hei⟩
      exact ⟨e, (List.mem_filter.mp he).1, hei⟩
    · rcases List.mem_map.mp h2 with ⟨e, he, hei⟩
      exact ⟨e, (List.mem_filter.mp (List.mem_of_mem_drop he)).1, hei⟩
  · rw [if_neg hv] at h
    rcases List.mem_map.mp h with ⟨e, he, hei⟩
    exact ⟨e, List.mem_of_mem_drop he, hei⟩

theorem mem_groupDeletions_of_invalid {validIds : List String}
    {g : List CalEvent} {e : CalEvent} (he : e ∈ g)
    (hany : g.any (fun v => validIds.contains v.id) = true)
    (hinv : validIds.contains e.id = false) :
    e.id ∈ groupDeletions validIds g := by
  unfold groupDeletions
  rcases List.any_eq_true.mp hany with ⟨v, hv, hvc⟩
  have hvlen : (g.filter (fun x => validIds.contains x.id)).length > 0 := by
    have : v ∈ g.filter (fun x => validIds.contains x.id) :=
      List.mem_filter.mpr ⟨hv, hvc⟩
    exact List.length_pos.mpr (List.ne_nil_of_mem this)
  rw [if_pos hvlen]
  apply List.mem_append.mpr
  left
  exact List.mem_map.mpr ⟨e, List.mem_filter.mpr ⟨he, by rw [hinv]; rfl⟩, rfl⟩

theorem groupDeletions_nodup {validIds : List String} {g : List CalEvent}
    (hg : (g.map CalEvent.id).Nodup) :
    (groupDeletions validIds g).Nodup := by
  unfold groupDeletions
  have hsub : ∀ p : CalEvent → Bool,
      ((g.filter p).map CalEvent.id).Nodup := by
    intro p
    exact List.Nodup.sublist (List.Sublist.map _ (List.filter_sublist _)) hg
  by_cases hv : (g.filter (fun e => validIds.contains e.id)).length > 0
  · rw [if_pos hv]
    apply List.Nodup.append
    · exact hsub _
    · exact List.Nodup.sublist
        (List.Sublist.map _ (List.drop_sublist _ _)) (hsub _)
    · intro i h1 h2
      rcases List.mem_map.mp h1 with ⟨e, he, hei⟩
      rcases List.mem_map.mp h2 with ⟨v, hv2, hvi⟩
      have he2 := List.mem_filter.mp he
      have hv3 := List.mem_filter.mp (List.mem_of_mem_drop hv2)
      have : validIds.contains e.id = validIds.contains v.id := by
        rw [hei, hvi]
      rw [(by simpa using hv3.2 : validIds.contains v.id = true)] at this
      have : ¬validIds.contains e.id = true := by simpa using he2.2
      simp_all
  · rw [if_neg hv]
    have h2 : List.Sublist ((g.drop 1).map CalEvent.id)
        (g.map CalEvent.id) :=
      List.Sublist.map _ (List.drop_sublist _ _)
    exact List.Nodup.sublist h2 hg

theorem deleteSeq_success :
    ∀ (eids : List String) (cal : List CalEvent) (n : Nat),
      eids.Nodup → (∀ i ∈ eids, ∃ e ∈ cal, e.id = i) →
      deleteSeq eids cal n =
        (cal.filter (fun e => !eids.contains e.id), n + eids.length,
          true) := by
  intro eids
  induction eids with
  | nil =>
    intro cal n _ _
    simp [deleteSeq]
  | cons eid rest ih =>
    intro cal n hnd hpres
    rcases hpres eid (List.mem_cons_self _ _) with ⟨e, he, heid⟩
    have hany : cal.any (fun x => x.id = eid) = true :=
      List.any_eq_true.mpr ⟨e, he, by simp [heid]⟩
    have hcan : cancelAppointment cal eid =
        some (cal.filter (fun x => x.id ≠ eid)) := by
      unfold cancelAppointment
      rw [if_pos hany]
    have hrec := ih (cal.filter (fun x => x.id ≠ eid)) (n + 1)
      (List.nodup_cons.mp hnd).2 ?_
    · rw [deleteSeq, hcan]
      show deleteSeq rest (cal.filter (fun x => x.id ≠ eid)) (n + 1) =
        (cal.filter (fun e => !(eid :: rest).contains e.id),
          n + (eid :: rest).length, true)
      rw [hrec]
      simp only [Prod.mk.injEq]
      refine ⟨?_, by simp only [List.length_cons]; omega, trivial⟩
      rw [List.filter_filter]
      apply List.filter_congr
      intro x hx
      by_cases h1 : x.id = eid <;> by_cases h2 : x.id ∈ rest <;>
        simp [h1, h2]
    · intro i hi
      rcases hpres i (List.mem_cons_of_mem _ hi) with ⟨f, hf, hfi⟩
      have hne : i ≠ eid := by
        intro he2
        rw [he2] at hi
        exact (List.nodup_cons.mp hnd).1 hi
      refine ⟨f, List.mem_filter.mpr ⟨hf, ?_⟩, hfi⟩
      simp [hfi, hne]

theorem processSlots_spec (validIds : List String)
    (snapshot : List CalEvent) (hsnod : (snapshot.map CalEvent.id).Nodup) :
    ∀ (keys : List String) (cal : List CalEvent) (n : Nat),
      keys.Nodup →
      (∀ e ∈ snapshot, eventSlotKey e ∈ keys → ∃ f ∈ cal, f.id = e.id) →
      (processSlots validIds snapshot keys cal n).2.2 = true ∧
      (∀ i, i ∈ ((processSlots validIds snapshot keys cal n).1.map
          CalEvent.id) → i ∈ cal.map CalEvent.id) ∧
      (∀ e ∈ snapshot, eventSlotKey e ∈ keys →
        (snapshot.filter
          (fun x => eventSlotKey x = eventSlotKey e)).length > 1 →
        (snapshot.filter (fun x => eventSlotKey x = eventSlotKey e)).any
          (fun v => validIds.contains v.id) = true →
        validIds.contains e.id = false →
        e.id ∉ ((processSlots validIds snapshot keys cal n).1.map
          CalEvent.id)) := by
  intro keys
  induction keys with
  | nil =>
    intro cal n _ _
    refine ⟨rfl, fun i h => h, ?_⟩
    intro e he hk
    simp at hk
  | cons k ks ih =>
    intro cal n hknd hpres
    by_cases hlen : (snapshot.filter (fun e => eventSlotKey e = k)).length ≤ 1
    · have hstep : processSlots validIds snapshot (k :: ks) cal n =
          processSlots validIds snapshot ks cal n := by
        simp only [processSlots]
        rw [if_pos hlen]
      have hpres2 : ∀ e ∈ snapshot, eventSlotKey e ∈ ks →
          ∃ f ∈ cal, f.id = e.id :=
        fun e he hk2 => hpres e he (List.mem_cons_of_mem _ hk2)
      obtain ⟨hok, hshrink, hdel⟩ :=
        ih cal n (List.nodup_cons.mp hknd).2 hpres2
      rw [hstep]
      refine ⟨hok, hshrink, ?_⟩
      intro e he hk2 hlen2 hany2 hinv2
      rcases List.mem_cons.mp hk2 with hke | hke2
      · rw [hke] at hlen2
        omega
      · exact hdel e he hke2 hlen2 hany2 hinv2
    · have hgnod : ((snapshot.filter
          (fun e => eventSlotKey e = k)).map CalEvent.id).Nodup :=
        List.Nodup.sublist
          (List.Sublist.map _ (List.filter_sublist _)) hsnod
      have htodelnd : (groupDeletions validIds
          (snapshot.filter (fun e => eventSlotKey e = k))).Nodup :=
        groupDeletions_nodup hgnod
      have htodelpres : ∀ i ∈ groupDeletions validIds
          (snapshot.filter (fun e => eventSlotKey e = k)),
          ∃ f ∈ cal, f.id = i := by
        intro i hi
        rcases groupDeletions_ids_sub hi with ⟨e, he, hei⟩
        have he2 := List.mem_filter.mp he
        have hke : eventSlotKey e = k := by simpa using he2.2
        rcases hpres e he2.1
            (by rw [hke]; exact List.mem_cons_self _ _) with ⟨f, hf, hfi⟩
        exact ⟨f, hf, by rw [hfi, hei]⟩
      have hds := deleteSeq_success _ cal n htodelnd htodelpres
      have hstep : processSlots validIds snapshot (k :: ks) cal n =
          processSlots validIds snapshot ks
            (cal.filter (fun e => !(groupDeletions validIds
              (snapshot.filter
                (fun x => eventSlotKey x = k))).contains e.id))
            (n + (groupDeletions validIds
              (snapshot.filter (fun x => eventSlotKey x = k))).length) := by
        simp only [processSlots]
        rw [if_neg hlen, hds]
      have hpresF : ∀ e ∈ snapshot, eventSlotKey e ∈ ks →
          ∃ f ∈ (cal.filter (fun e => !(groupDeletions validIds
            (snapshot.filter
              (fun x => eventSlotKey x = k))).contains e.id)),
            f.id = e.id := by
        intro e he hk2
        rcases hpres e he (List.mem_cons_of_mem _ hk2) with ⟨f, hf, hfi⟩
        have hnotdel : e.id ∉ groupDeletions validIds
            (snapshot.filter (fun x => eventSlotKey x = k)) := by
          intro hcontra
          rcases groupDeletions_ids_sub hcontra with ⟨x, hx, hxi⟩
          have hx2 := List.mem_filter.mp hx
          have hxe : x = e := calevent_id_inj hsnod hx2.1 he hxi
          have hkk : eventSlotKey e = k := by
            rw [← hxe]
            simpa using hx2.2
          rw [hkk] at hk2
          exact (List.nodup_cons.mp hknd).1 hk2
        refine ⟨f, List.mem_filter.mpr ⟨hf, ?_⟩, hfi⟩
        simp [hfi, hnotdel]
      obtain ⟨hok, hshrink, hdel⟩ :=
        ih _ _ (List.nodup_cons.mp hknd).2 hpresF
      rw [hstep]
      refine ⟨hok, ?_, ?_⟩
      · intro i hi
        have h2 := hshrink i hi
        rcases List.mem_map.mp h2 with ⟨f, hf, hfi⟩
        exact List.mem_map.mpr ⟨f, (List.mem_filter.mp hf).1, hfi⟩
      · intro e he hk2 hlen2 hany2 hinv2
        rcases List.mem_cons.mp hk2 with hke | hke2
        · have heg : e ∈ snapshot.filter
              (fun x => eventSlotKey x = k) :=
            List.mem_filter.mpr ⟨he, by simp [hke]⟩
          have hedel : e.id ∈ groupDeletions validIds
              (snapshot.filter (fun x => eventSlotKey x = k)) := by
            apply mem_groupDeletions_of_invalid heg ?_ hinv2
            simp only [hke] at hany2
            exact hany2
          intro hcontra
          have hinF := hshrink e.id hcontra
          rcases List.mem_map.mp hinF with ⟨f, hf, hfi⟩
          have hf2 := List.mem_filter.mp hf
          have h5 : f.id ∉ groupDeletions validIds
              (snapshot.filter (fun x => eventSlotKey x = k)) := by
            simpa using hf2.2
          rw [hfi] at h5
          exact h5 hedel
        · exact hdel e he hke2 hlen2 hany2 hinv2

/-- C5 counterexample: the listing snapshot holds two duplicate groups;
event `e2` of the first group is already gone from the live calendar, so
its per-event delete fails, the sweep aborts (no per-event catch), the
second group is never processed — its invalid duplicate `e4` survives even
though processing that group alone would delete it — and the function
reports 0 deletions. -/
theorem C5_counterexample :
    cleanCalendarDuplicates
      [⟨1, "p", "n", "d", "t", 30, "scheduled", some "e3", 0⟩]
      [⟨"e1", "2025-04-10T09:00:00"⟩, ⟨"e2", "2025-04-10T09:00:00"⟩,
       ⟨"e3", "2025-04-11T09:00:00"⟩, ⟨"e4", "2025-04-11T09:00:00"⟩]
      [⟨"e1", "2025-04-10T09:00:00"⟩, ⟨"e3", "2025-04-11T09:00:00"⟩,
       ⟨"e4", "2025-04-11T09:00:00"⟩] =
      (0, [⟨"e1", "2025-04-10T09:00:00"⟩, ⟨"e3", "2025-04-11T09:00:00"⟩,
       ⟨"e4", "2025-04-11T09:00:00"⟩], false) ∧
    processSlots
      (validEventIds
        [⟨1, "p", "n", "d", "t", 30, "scheduled", some "e3", 0⟩])
      [⟨"e3", "2025-04-11T09:00:00"⟩, ⟨"e4", "2025-04-11T09:00:00"⟩]
      ["2025-04-11_09:00"]
      [⟨"e1", "2025-04-10T09:00:00"⟩, ⟨"e3", "2025-04-11T09:00:00"⟩,
       ⟨"e4", "2025-04-11T09:00:00"⟩] 0 =
      ([⟨"e1", "2025-04-10T09:00:00"⟩, ⟨"e3", "2025-04-11T09:00:00"⟩], 1,
        true) := by
  decide

/-- C5 (amended): `cancelAppointment` rethrows a failed delete (a delete of
an event that no longer exists fails) and the group loop has no per-event
catch, so the first failed delete aborts the remaining events and groups;
the sweep-level catch then reports 0 deletions instead of throwing. -/
theorem C5_failed_delete_aborts_and_returns_zero (db : List Appt)
    (snapshot cal : List CalEvent)
    (h : (cleanCalendarDuplicates db snapshot cal).2.2 = false) :
    (cleanCalendarDuplicates db snapshot cal).1 = 0 := by
  simp only [cleanCalendarDuplicates] at h ⊢
  by_cases hok : (processSlots (validEventIds db) snapshot
      (firstOccur (snapshot.map eventSlotKey)) cal 0).2.2 = true
  · rw [if_pos hok] at h
    simp at h
  · rw [if_neg hok]

/-- Witness for C5 at the aborting input of the counterexample. -/
theorem C5_witness :
    (cleanCalendarDuplicates
      [⟨1, "p", "n", "d", "t", 30, "scheduled", some "e3", 0⟩]
      [⟨"e1", "2025-04-10T09:00:00"⟩, ⟨"e2", "2025-04-10T09:00:00"⟩,
       ⟨"e3", "2025-04-11T09:00:00"⟩, ⟨"e4", "2025-04-11T09:00:00"⟩]
      [⟨"e1", "2025-04-10T09:00:00"⟩, ⟨"e3", "2025-04-11T09:00:00"⟩,
       ⟨"e4", "2025-04-11T09:00:00"⟩]).2.2 = false ∧
    (cleanCalendarDuplicates
      [⟨1, "p", "n", "d", "t", 30, "scheduled", some "e3", 0⟩]
      [⟨"e1", "2025-04-10T09:00:00"⟩, ⟨"e2", "2025-04-10T09:00:00"⟩,
       ⟨"e3", "2025-04-11T09:00:00"⟩, ⟨"e4", "2025-04-11T09:00:00"⟩]
      [⟨"e1", "2025-04-10T09:00:00"⟩, ⟨"e3", "2025-04-11T09:00:00"⟩,
       ⟨"e4", "2025-04-11T09:00:00"⟩]).1 = 0 :=
  ⟨by decide, C5_failed_delete_aborts_and_returns_zero _ _ _ (by decide)⟩

/-- C10 counterexample: event `X` sits in a two-event slot and is
referenced only by a confirmed appointment, so the sweep's valid set is
empty and `X` is classified invalid — yet the sweep keeps it (it is the
first listed event of a slot with no valid event) and deletes `Z` instead,
refuting "…is classified invalid and is deleted by the sweep". -/
theorem C10_counterexample :
    validEventIds
      [⟨1, "p", "n", "2025-04-10", "09:00", 30, "confirmed", some "X", 0⟩]
      = [] ∧
    (cleanCalendarDuplicates
      [⟨1, "p", "n", "2025-04-10", "09:00", 30, "confirmed", some "X", 0⟩]
      [⟨"X", "2025-04-10T09:00:00"⟩, ⟨"Z", "2025-04-10T09:00:00"⟩]
      [⟨"X", "2025-04-10T09:00:00"⟩, ⟨"Z", "2025-04-10T09:00:00"⟩]).2.2 =
      true ∧
    ((cleanCalendarDuplicates
      [⟨1, "p", "n", "2025-04-10", "09:00", 30, "confirmed", some "X", 0⟩]
      [⟨"X", "2025-04-10T09:00:00"⟩, ⟨"Z", "2025-04-10T09:00:00"⟩]
      [⟨"X", "2025-04-10T09:00:00"⟩, ⟨"Z", "2025-04-10T09:00:00"⟩]).2.1).map
      CalEvent.id = ["X"] := by
  decide

/-- C10 (amended): the booking path counts scheduled, confirmed and pending
as active, but the calendar sweep's valid set — like the reconciliation's
input query — is built from `scheduled` records only, so an event
referenced by no scheduled appointment (e.g. only by a confirmed or pending
one) is classified invalid, and in a multi-event slot that also holds a
scheduled-referenced event it is deleted by the sweep.  (In a slot with no
scheduled-referenced event the first listed event survives instead — see
the counterexample.) -/
theorem C10_confirmed_referenced_events_invalid (db : List Appt)
    (snapshot cal : List CalEvent) (e : CalEvent)
    (hsnod : (snapshot.map CalEvent.id).Nodup)
    (hpres : ∀ x ∈ snapshot, ∃ f ∈ cal, f.id = x.id)
    (he : e ∈ snapshot)
    (hnosched : ∀ a ∈ db, a.status = "scheduled" →
      a.google_event_id ≠ some e.id)
    (hlen : (snapshot.filter
      (fun x => eventSlotKey x = eventSlotKey e)).length > 1)
    (hany : (snapshot.filter (fun x => eventSlotKey x = eventSlotKey e)).any
      (fun v => (validEventIds db).contains v.id) = true) :
    (validEventIds db).contains e.id = false ∧
    (cleanCalendarDuplicates db snapshot cal).2.2 = true ∧
    e.id ∉ ((cleanCalendarDuplicates db snapshot cal).2.1).map
      CalEvent.id := by
  have hinv : (validEventIds db).contains e.id = false := by
    by_cases hc : (validEventIds db).contains e.id = true
    · exfalso
      have hmem : e.id ∈ validEventIds db := by simpa using hc
      rcases (mem_validEventIds db e.id).mp hmem with ⟨a, ha, hst, hgei⟩
      exact hnosched a ha hst (by rw [hgei])
    · simpa using hc
  obtain ⟨hok, hshrink, hdel⟩ := processSlots_spec (validEventIds db)
    snapshot hsnod (firstOccur (snapshot.map eventSlotKey)) cal 0
    (nodup_firstOccur _)
    (fun x hx _ => hpres x hx)
  have hkmem : eventSlotKey e ∈ firstOccur (snapshot.map eventSlotKey) := by
    rw [mem_firstOccur]
    exact List.mem_map.mpr ⟨e, he, rfl⟩
  have hdel2 := hdel e he hkmem hlen hany hinv
  refine ⟨hinv, ?_, ?_⟩
  · simp only [cleanCalendarDuplicates]
    rw [if_pos hok]
  · simp only [cleanCalendarDuplicates]
    rw [if_pos hok]
    exact hdel2

/-- Witness for C10: event `X` (confirmed-referenced) shares its slot with
`Y` (scheduled-referenced); `X` is classified invalid and deleted. -/
theorem C10_witness :
    ((([⟨"Y", "2025-04-10T09:00:00"⟩, ⟨"X", "2025-04-10T09:00:00"⟩] :
        List CalEvent).map CalEvent.id).Nodup ∧
     (∀ x ∈ ([⟨"Y", "2025-04-10T09:00:00"⟩,
        ⟨"X", "2025-04-10T09:00:00"⟩] : List CalEvent),
       ∃ f ∈ ([⟨"Y", "2025-04-10T09:00:00"⟩,
        ⟨"X", "2025-04-10T09:00:00"⟩] : List CalEvent), f.id = x.id) ∧
     (⟨"X", "2025-04-10T09:00:00"⟩ : CalEvent) ∈
       ([⟨"Y", "2025-04-10T09:00:00"⟩,
         ⟨"X", "2025-04-10T09:00:00"⟩] : List CalEvent) ∧
     (∀ a ∈ ([⟨1, "p", "n", "2025-04-10", "09:00", 30, "confirmed",
          some "X", 0⟩,
        ⟨2, "q", "m", "2025-04-10", "09:00", 30, "scheduled",
          some "Y", 0⟩] : List Appt),
       a.status = "scheduled" → a.google_event_id ≠
         some (CalEvent.id ⟨"X", "2025-04-10T09:00:00"⟩))) ∧
    ((validEventIds
      [⟨1, "p", "n", "2025-04-10", "09:00", 30, "confirmed", some "X", 0⟩,
       ⟨2, "q", "m", "2025-04-10", "09:00", 30, "scheduled",
         some "Y", 0⟩]).contains
        (CalEvent.id ⟨"X", "2025-04-10T09:00:00"⟩) = false ∧
     (cleanCalendarDuplicates
      [⟨1, "p", "n", "2025-04-10", "09:00", 30, "confirmed", some "X", 0⟩,
       ⟨2, "q", "m", "2025-04-10", "09:00", 30, "scheduled",
         some "Y", 0⟩]
      [⟨"Y", "2025-04-10T09:00:00"⟩, ⟨"X", "2025-04-10T09:00:00"⟩]
      [⟨"Y", "2025-04-10T09:00:00"⟩,
       ⟨"X", "2025-04-10T09:00:00"⟩]).2.2 = true ∧
     (CalEvent.id ⟨"X", "2025-04-10T09:00:00"⟩) ∉
       ((cleanCalendarDuplicates
        [⟨1, "p", "n", "2025-04-10", "09:00", 30, "confirmed", some "X", 0⟩,
         ⟨2, "q", "m", "2025-04-10", "09:00", 30, "scheduled",
           some "Y", 0⟩]
        [⟨"Y", "2025-04-10T09:00:00"⟩, ⟨"X", "2025-04-10T09:00:00"⟩]
        [⟨"Y", "2025-04-10T09:00:00"⟩,
         ⟨"X", "2025-04-10T09:00:00"⟩]).2.1).map CalEvent.id) :=
  ⟨by decide,
   C10_confirmed_referenced_events_invalid _ _ _ _ (by decide) (by decide)
     (by decide) (by decide) (by decide) (by decide)⟩

/-! ### Fold and association-map lemmas for the reconciliation engine -/

theorem foldl_pair_split {σ A B : Type} (f : List A → σ → List A)
    (g : List B → σ → List B) :
    ∀ (l : List σ) (s : List A × List B),
      l.foldl (fun s x => (f s.1 x, g s.2 x)) s =
        (l.foldl f s.1, l.foldl g s.2) := by
  intro l
  induction l with
  | nil => intro s; rfl
  | cons x l ih =>
    intro s
    rw [List.foldl_cons, ih, List.foldl_cons, List.foldl_cons]

theorem foldl_append_map {σ A : Type} (g : σ → A) :
    ∀ (l : List σ) (init : List A),
      l.foldl (fun acc x => acc ++ [g x]) init = init ++ l.map g := by
  intro l
  induction l with
  | nil => intro init; simp
  | cons x l ih =>
    intro init
    rw [List.foldl_cons, ih]
    simp

theorem foldl_append_shift {σ A : Type} (g : σ → List A) :
    ∀ (l : List σ) (init : List A),
      l.foldl (fun acc x => acc ++ g x) init =
        init ++ l.foldl (fun acc x => acc ++ g x) [] := by
  intro l
  induction l with
  | nil => intro init; simp
  | cons x l ih =>
    intro init
    rw [List.foldl_cons, ih, List.foldl_cons, List.nil_append, ih (g x)]
    simp

theorem mem_foldl_append {σ A : Type} (g : σ → List A) :
    ∀ (l : List σ) (y : A),
      y ∈ l.foldl (fun acc x => acc ++ g x) [] ↔ ∃ x ∈ l, y ∈ g x := by
  intro l
  induction l with
  | nil => intro y; simp
  | cons x l ih =>
    intro y
    rw [List.foldl_cons, foldl_append_shift, List.nil_append,
      List.mem_append, ih]
    constructor
    · rintro (h | ⟨z, hz, hy⟩)
      · exact ⟨x, List.mem_cons_self _ _, h⟩
      · exact ⟨z, List.mem_cons_of_mem _ hz, hy⟩
    · rintro ⟨z, hz, hy⟩
      rcases List.mem_cons.mp hz with rfl | hz2
      · exact Or.inl hy
      · exact Or.inr ⟨z, hz2, hy⟩

theorem foldl_map_comm {σ α : Type} (g : σ → α → α) :
    ∀ (l : List σ) (d : List α),
      l.foldl (fun dd x => dd.map (g x)) d =
        d.map (fun a => l.foldl (fun b x => g x b) a) := by
  intro l
  induction l with
  | nil => intro d; simp
  | cons x l ih =>
    intro d
    rw [List.foldl_cons, ih, List.map_map]
    rfl

theorem foldl_fix {σ α : Type} (g : σ → α → α) :
    ∀ (l : List σ) (b : α), (∀ x ∈ l, g x b = b) →
      l.foldl (fun a x => g x a) b = b := by
  intro l
  induction l with
  | nil => intro b _; rfl
  | cons x l ih =>
    intro b h
    rw [List.foldl_cons, h x (List.mem_cons_self _ _)]
    exact ih b (fun y hy => h y (List.mem_cons_of_mem _ hy))

theorem mapSet_of_not_mem {α β : Type} [DecidableEq α]
    (m : List (α × β)) (k : α) (v : β) (h : k ∉ m.map Prod.fst) :
    mapSet m k v = m ++ [(k, v)] := by
  unfold mapSet
  rw [if_neg]
  intro hc
  rcases List.any_eq_true.mp hc with ⟨p, hp, hpk⟩
  exact h (List.mem_map.mpr ⟨p, hp, by simpa using hpk⟩)

theorem mapGet_eq_some_iff {α β : Type} [DecidableEq α]
    {m : List (α × β)} (hnd : (m.map Prod.fst).Nodup) {k : α} {v : β} :
    mapGet m k = some v ↔ (k, v) ∈ m := by
  unfold mapGet
  constructor
  · intro h
    rcases hfind : m.find? (fun p => p.1 = k) with _ | p
    · rw [hfind] at h
      simp at h
    · rw [hfind] at h
      have hp2 : p.2 = v := by simpa using h
      have hpk : p.1 = k := by simpa using List.find?_some hfind
      have hpm : p ∈ m := List.mem_of_find?_eq_some hfind
      have hpe : p = (k, v) := by
        rcases p with ⟨p1, p2⟩
        simp_all
      rw [← hpe]
      exact hpm
  · intro h
    rcases hfind : m.find? (fun p => p.1 = k) with _ | p
    · exfalso
      rw [List.find?_eq_none] at hfind
      have h2 := hfind (k, v) h
      simp at h2
    · have hpk : p.1 = k := by simpa using List.find?_some hfind
      have hpm : p ∈ m := List.mem_of_find?_eq_some hfind
      have hpe : p = (k, v) :=
        List.inj_on_of_nodup_map hnd hpm h (by rw [hpk])
      rw [hfind, hpe]
      rfl

theorem syncKey_some_iff {a : Appt} {k : String} :
    syncKey a = some k ↔ a.google_event_id = some k ∧ k ≠ "" := by
  unfold syncKey
  rcases hga : a.google_event_id with _ | eid
  · simp
  · show (if eid = "" then none else (some eid : Option String)) = some k ↔
      some eid = some k ∧ k ≠ ""
    by_cases he : eid = ""
    · subst he
      rw [if_pos rfl]
      constructor
      · intro h
        cases h
      · rintro ⟨h1, h2⟩
        exact absurd (Option.some.inj h1).symm h2
    · rw [if_neg he]
      constructor
      · intro h
        have hek : eid = k := Option.some.inj h
        subst hek
        exact ⟨rfl, he⟩
      · rintro ⟨h1, _⟩
        exact h1

theorem foldl_syncStep_eq :
    ∀ (l : List Appt) (m : List (String × Appt)),
      (m.map Prod.fst).Nodup →
      (∀ a ∈ l, ∀ k, syncKey a = some k → k ∉ m.map Prod.fst) →
      (l.filterMap syncKey).Nodup →
      l.foldl (fun m a =>
        match a.google_event_id with
        | some eid => if eid = "" then m else mapSet m eid a
        | none => m) m =
      m ++ l.filterMap (fun a => (syncKey a).map (fun k => (k, a))) := by
  intro l
  induction l with
  | nil =>
    intro m _ _ _
    simp
  | cons a l ih =>
    intro m hmnd hdisj hlnd
    rw [List.foldl_cons]
    rcases hga : a.google_event_id with _ | eid
    · have hsk : syncKey a = none := by simp [syncKey, hga]
      simp only [hga]
      rw [ih m hmnd
        (fun b hb k hk => hdisj b (List.mem_cons_of_mem _ hb) k hk)
        (by simpa [List.filterMap_cons, hsk] using hlnd)]
      simp [List.filterMap_cons, hsk]
    · by_cases he : eid = ""
      · have hsk : syncKey a = none := by simp [syncKey, hga, he]
        simp only [hga, he, if_pos]
        rw [ih m hmnd
          (fun b hb k hk => hdisj b (List.mem_cons_of_mem _ hb) k hk)
          (by simpa [List.filterMap_cons, hsk] using hlnd)]
        simp [List.filterMap_cons, hsk]
      · have hsk : syncKey a = some eid := by simp [syncKey, hga, he]
        have hnotin : eid ∉ m.map Prod.fst :=
          hdisj a (List.mem_cons_self _ _) eid hsk
        have hlnd2 : (eid :: l.filterMap syncKey).Nodup := by
          simpa [List.filterMap_cons, hsk] using hlnd
        simp only [hga, if_neg he]
        rw [mapSet_of_not_mem _ _ _ hnotin]
        rw [ih (m ++ [(eid, a)]) ?_ ?_ (List.nodup_cons.mp hlnd2).2]
        · rw [List.filterMap_cons]
          simp [hsk, List.append_assoc]
        · rw [List.map_append]
          refine List.Nodup.append hmnd (by simp) ?_
          intro x hx hx2
          simp at hx2
          rw [hx2] at hx
          exact hnotin hx
        · intro b hb k hk hmem
          rw [List.map_append] at hmem
          rcases List.mem_append.mp hmem with h1 | h2
          · exact hdisj b (List.mem_cons_of_mem _ hb) k hk h1
          · have hke : k = eid := by simpa using h2
            have : k ∈ l.filterMap syncKey :=
              List.mem_filterMap.mpr ⟨b, hb, hk⟩
            rw [hke] at this
            exact (List.nodup_cons.mp hlnd2).1 this

theorem dbAppointmentMap_eq (db : List Appt)
    (hnd : ((getScheduledWithEvent db).filterMap syncKey).Nodup) :
    dbAppointmentMap db =
      (getScheduledWithEvent db).filterMap
        (fun a => (syncKey a).map (fun k => (k, a))) := by
  unfold dbAppointmentMap
  rw [foldl_syncStep_eq (getScheduledWithEvent db) [] (by simp)
    (by simp) hnd]
  simp

theorem foldl_calStep_eq :
    ∀ (l : List CalEvent) (m : List (String × CalEvent)),
      (m.map Prod.fst).Nodup → (∀ e ∈ l, e.id ∉ m.map Prod.fst) →
      (l.map CalEvent.id).Nodup →
      l.foldl (fun m e => mapSet m e.id e) m =
        m ++ l.map (fun e => (e.id, e)) := by
  intro l
  induction l with
  | nil =>
    intro m _ _ _
    simp
  | cons e l ih =>
    intro m hmnd hdisj hlnd
    rw [List.foldl_cons, mapSet_of_not_mem _ _ _
      (hdisj e (List.mem_cons_self _ _))]
    rw [ih (m ++ [(e.id, e)]) ?_ ?_ (List.nodup_cons.mp hlnd).2]
    · simp [List.append_assoc]
    · rw [List.map_append]
      refine List.Nodup.append hmnd (by simp) ?_
      intro x hx hx2
      simp at hx2
      rw [hx2] at hx
      exact hdisj e (List.mem_cons_self _ _) hx
    · intro f hf hmem
      rw [List.map_append] at hmem
      rcases List.mem_append.mp hmem with h1 | h2
      · exact hdisj f (List.mem_cons_of_mem _ hf) h1
      · have hfe : f.id = e.id := by simpa using h2
        have : f.id ∈ l.map CalEvent.id := List.mem_map.mpr ⟨f, hf, rfl⟩
        rw [hfe] at this
        exact (List.nodup_cons.mp hlnd).1 this

theorem calendarEventMap_eq (events : List CalEvent)
    (hnd : (events.map CalEvent.id).Nodup) :
    calendarEventMap events = events.map (fun e => (e.id, e)) := by
  unfold calendarEventMap
  rw [foldl_calStep_eq events [] (by simp) (by simp) hnd]
  simp

theorem pairMap_keys (l : List Appt) :
    ((l.filterMap (fun a => (syncKey a).map (fun k => (k, a)))).map
      Prod.fst) = l.filterMap syncKey := by
  induction l with
  | nil => rfl
  | cons a l ih =>
    rcases hsk : syncKey a with _ | k <;>
      simp [List.filterMap_cons, hsk, ih]

theorem mem_pairMap {l : List Appt} {p : String × Appt} :
    p ∈ l.filterMap (fun a => (syncKey a).map (fun k => (k, a))) ↔
      p.2 ∈ l ∧ syncKey p.2 = some p.1 := by
  rw [List.mem_filterMap]
  constructor
  · rintro ⟨a, ha, hp⟩
    rcases hsk : syncKey a with _ | k
    · rw [hsk] at hp
      simp at hp
    · rw [hsk] at hp
      simp at hp
      rw [← hp]
      exact ⟨ha, hsk⟩
  · rintro ⟨hp2, hsk⟩
    exact ⟨p.2, hp2, by simp [hsk]⟩

theorem snd_mem_of_mem_enum {α : Type} {l : List α} {x : Nat × α}
    (h : x ∈ l.enum) : x.2 ∈ l := by
  rcases x with ⟨i, a⟩
  exact List.getElem?_mem (List.mk_mem_enum_iff_getElem?.mp h)

theorem computeSyncPlan_toUpdate (tzI : String → String → Int)
    (parseI : String → Int) (nowMs : Nat) (db : List Appt)
    (events : List CalEvent) :
    (computeSyncPlan tzI parseI nowMs db events).toUpdateInCalendar =
      (dbAppointmentMap db).foldl
        (fun acc p => acc ++ entryUpdates tzI parseI
          (calendarEventMap events) p) [] := by
  simp only [computeSyncPlan]
  rw [foldl_pair_split
    (fun acc p => acc ++ entryCreates (calendarEventMap events) nowMs p)
    (fun acc p => acc ++ entryUpdates tzI parseI (calendarEventMap events) p)]

theorem computeSyncPlan_toCreate (tzI : String → String → Int)
    (parseI : String → Int) (nowMs : Nat) (db : List Appt)
    (events : List CalEvent) :
    (computeSyncPlan tzI parseI nowMs db events).toCreateInCalendar =
      (dbAppointmentMap db).foldl
        (fun acc p => acc ++ entryCreates (calendarEventMap events) nowMs p)
        [] := by
  simp only [computeSyncPlan]
  rw [foldl_pair_split
    (fun acc p => acc ++ entryCreates (calendarEventMap events) nowMs p)
    (fun acc p => acc ++ entryUpdates tzI parseI (calendarEventMap events) p)]

theorem computeSyncPlan_empties (tzI : String → String → Int)
    (parseI : String → Int) (nowMs : Nat) (db : List Appt)
    (events : List CalEvent) :
    (computeSyncPlan tzI parseI nowMs db events).toDeleteInCalendar = [] ∧
    (computeSyncPlan tzI parseI nowMs db events).toUpdateInDb = [] ∧
    (computeSyncPlan tzI parseI nowMs db events).toDeleteInDb = [] := by
  refine ⟨?_, ?_, ?_⟩ <;> simp only [computeSyncPlan]

theorem foldl_pair_split_ext {s A B : Type}
    (step : List A × List B → s → List A × List B) (f : List A → s → List A)
    (g : List B → s → List B)
    (hstep : ∀ p x, step p x = (f p.1 x, g p.2 x)) :
    ∀ (l : List s) (p : List A × List B),
      l.foldl step p = (l.foldl f p.1, l.foldl g p.2) := by
  intro l
  induction l with
  | nil => intro p; rfl
  | cons x l ih =>
    intro p
    rw [List.foldl_cons, hstep, ih, List.foldl_cons, List.foldl_cons]

theorem foldl_map_comm_ext {s a : Type} (step : List a → s → List a)
    (g : s → a → a) (hstep : ∀ d x, step d x = d.map (g x)) :
    ∀ (l : List s) (d : List a),
      l.foldl step d = d.map (fun b => l.foldl (fun b x => g x b) b) := by
  intro l
  induction l with
  | nil => intro d; simp
  | cons x l ih =>
    intro d
    rw [List.foldl_cons, hstep, ih, List.map_map]
    rfl

theorem foldl_append_map_ext {s A : Type} (step : List A → s → List A)
    (g : s → A) (hstep : ∀ acc x, step acc x = acc ++ [g x]) :
    ∀ (l : List s) (init : List A),
      l.foldl step init = init ++ l.map g := by
  intro l
  induction l with
  | nil => intro init; simp
  | cons x l ih =>
    intro init
    rw [List.foldl_cons, hstep, ih]
    simp

theorem applySyncFixes_decomp (plan : SyncPlan) (db : List Appt)
    (cal : List CalEvent) (freshIds : List String)
    (hdc : plan.toDeleteInCalendar = []) (hdd : plan.toDeleteInDb = []) :
    applySyncFixes plan db cal freshIds =
      (db.map (fun b => plan.toCreateInCalendar.enum.foldl
         (fun (b : Appt) (x : Nat × Appt) => if b.id = x.2.id then
            { b with google_event_id := some (freshIds.getD x.1 "") }
          else b) b),
       (cal ++ plan.toCreateInCalendar.enum.map
          (fun x : Nat × Appt =>
            ({ id := freshIds.getD x.1 "", start := mkStart x.2 } :
              CalEvent))).map
         (fun ev => plan.toUpdateInCalendar.foldl
           (fun (ev : CalEvent) (x : Appt × CalEvent) =>
            if ev.id = x.2.id then
              { ev with start := mkStart x.1 }
            else ev) ev),
       plan.toUpdateInCalendar.map (fun x => (x.2.id, x.1))) := by
  simp only [applySyncFixes, hdc, hdd]
  rw [foldl_pair_split_ext
    (fun (s : List Appt × List CalEvent) (x : Nat × Appt) =>
      (s.1.map (fun b =>
         if b.id = x.2.id then
           { b with google_event_id := some (freshIds.getD x.1 "") }
         else b),
       s.2 ++ [({ id := freshIds.getD x.1 "", start := mkStart x.2 } :
         CalEvent)]))
    (fun d (x : Nat × Appt) => d.map (fun b =>
      if b.id = x.2.id then
        { b with google_event_id := some (freshIds.getD x.1 "") } else b))
    (fun c (x : Nat × Appt) =>
      c ++ [({ id := freshIds.getD x.1 "", start := mkStart x.2 } :
        CalEvent)])
    (fun _ _ => rfl)]
  rw [foldl_pair_split_ext
    (fun (s : List CalEvent × List (String × Appt))
        (x : Appt × CalEvent) =>
      (s.1.map (fun ev =>
         if ev.id = x.2.id then { ev with start := mkStart x.1 } else ev),
       s.2 ++ [(x.2.id, x.1)]))
    (fun c (x : Appt × CalEvent) => c.map (fun ev =>
      if ev.id = x.2.id then { ev with start := mkStart x.1 } else ev))
    (fun u (x : Appt × CalEvent) => u ++ [(x.2.id, x.1)])
    (fun _ _ => rfl)]
  rw [foldl_map_comm_ext
    (fun (d : List Appt) (x : Nat × Appt) => d.map (fun b =>
      if b.id = x.2.id then
        { b with google_event_id := some (freshIds.getD x.1 "") } else b))
    (fun (x : Nat × Appt) b =>
      if b.id = x.2.id then
        { b with google_event_id := some (freshIds.getD x.1 "") } else b)
    (fun _ _ => rfl)]
  rw [foldl_map_comm_ext
    (fun (c : List CalEvent) (x : Appt × CalEvent) => c.map (fun ev =>
      if ev.id = x.2.id then { ev with start := mkStart x.1 } else ev))
    (fun (x : Appt × CalEvent) ev =>
      if ev.id = x.2.id then { ev with start := mkStart x.1 } else ev)
    (fun _ _ => rfl)]
  rw [foldl_append_map_ext
    (fun (c : List CalEvent) (x : Nat × Appt) =>
      c ++ [({ id := freshIds.getD x.1 "", start := mkStart x.2 } :
        CalEvent)])
    (fun x : Nat × Appt =>
      ({ id := freshIds.getD x.1 "", start := mkStart x.2 } : CalEvent))
    (fun _ _ => rfl)]
  rw [foldl_append_map_ext
    (fun (u : List (String × Appt)) (x : Appt × CalEvent) =>
      u ++ [(x.2.id, x.1)])
    (fun x : Appt × CalEvent => (x.2.id, x.1))
    (fun _ _ => rfl)]
  simp

theorem calendarEventMap_keys (events : List CalEvent)
    (hev : (events.map CalEvent.id).Nodup) :
    ((calendarEventMap events).map Prod.fst).Nodup := by
  rw [calendarEventMap_eq events hev, List.map_map]
  exact hev

theorem mapGet_calendarEventMap {events : List CalEvent}
    (hev : (events.map CalEvent.id).Nodup) {k : String} {e : CalEvent} :
    mapGet (calendarEventMap events) k = some e ↔ e ∈ events ∧ e.id = k := by
  rw [mapGet_eq_some_iff (calendarEventMap_keys events hev),
    calendarEventMap_eq events hev]
  constructor
  · intro h
    rcases List.mem_map.mp h with ⟨ev, hevm, hp⟩
    have h1 : ev.id = k := congrArg Prod.fst hp
    have h2 : ev = e := congrArg Prod.snd hp
    subst h2
    exact ⟨hevm, h1⟩
  · rintro ⟨hm, hk⟩
    exact List.mem_map.mpr ⟨e, hm, by rw [hk]⟩

theorem entryUpdates_target (tzI : String → String → Int)
    (parseI : String → Int) {events : List CalEvent}
    (hev : (events.map CalEvent.id).Nodup) (p : String × Appt)
    {y : Appt × CalEvent}
    (hy : y ∈ entryUpdates tzI parseI (calendarEventMap events) p) :
    y.2.id = p.1 ∧ y.1 = p.2 := by
  unfold entryUpdates at hy
  rcases hget : mapGet (calendarEventMap events) p.1 with _ | e
  · rw [hget] at hy
    change y ∈ ([] : List (Appt × CalEvent)) at hy
    simp at hy
  · rw [hget] at hy
    change y ∈ (if tzI p.2.appointment_date p.2.appointment_time =
      parseI e.start then [] else [(p.2, e)]) at hy
    by_cases hc : tzI p.2.appointment_date p.2.appointment_time =
        parseI e.start
    · rw [if_pos hc] at hy
      simp at hy
    · rw [if_neg hc] at hy
      have hye : y = (p.2, e) := by simpa using hy
      subst hye
      have hbm := (mapGet_calendarEventMap hev).mp hget
      exact ⟨hbm.2, rfl⟩

theorem entryUpdates_eq (tzI : String → String → Int)
    (parseI : String → Int) {bMap : List (String × CalEvent)}
    (p : String × Appt) {e : CalEvent}
    (hget : mapGet bMap p.1 = some e) :
    entryUpdates tzI parseI bMap p =
      if tzI p.2.appointment_date p.2.appointment_time = parseI e.start
      then [] else [(p.2, e)] := by
  unfold entryUpdates
  rw [hget]

theorem mem_entryCreates {bMap : List (String × CalEvent)} {nowMs : Nat}
    {p : String × Appt} {y : Appt}
    (hy : y ∈ entryCreates bMap nowMs p) :
    y = p.2 ∧ mapGet bMap p.1 = none := by
  unfold entryCreates at hy
  rcases hget : mapGet bMap p.1 with _ | e
  · rw [hget] at hy
    change y ∈ (if hoursSinceCreation nowMs p.2.created_at ≤ 24
      then [p.2] else []) at hy
    by_cases hc : hoursSinceCreation nowMs p.2.created_at ≤ 24
    · rw [if_pos hc] at hy
      have : y = p.2 := by simpa using hy
      exact ⟨this, rfl⟩
    · rw [if_neg hc] at hy
      simp at hy
  · rw [hget] at hy
    change y ∈ ([] : List Appt) at hy
    simp at hy

theorem toUpdate_filter_unique (tzI : String → String → Int)
    (parseI : String → Int) {events : List CalEvent}
    (hev : (events.map CalEvent.id).Nodup) (eid : String) (a : Appt) :
    ∀ (l : List (String × Appt)),
      (l.map Prod.fst).Nodup → (eid, a) ∈ l →
      ((l.foldl (fun acc p => acc ++ entryUpdates tzI parseI
          (calendarEventMap events) p) []).filter
        (fun x => x.2.id = eid)) =
      entryUpdates tzI parseI (calendarEventMap events) (eid, a) := by
  intro l
  induction l with
  | nil =>
    intro _ h
    simp at h
  | cons p l ih =>
    intro hnd hmem
    rw [List.map_cons] at hnd
    rw [List.foldl_cons, foldl_append_shift, List.nil_append,
      List.filter_append]
    rcases List.mem_cons.mp hmem with heq | hmem2
    · have hpeid : p = (eid, a) := heq.symm
      subst hpeid
      have h1 : ((entryUpdates tzI parseI (calendarEventMap events)
          (eid, a)).filter (fun x => x.2.id = eid)) =
          entryUpdates tzI parseI (calendarEventMap events) (eid, a) := by
        apply List.filter_eq_self.mpr
        intro y hy
        have ht := (entryUpdates_target tzI parseI hev _ hy).1
        simp [ht]
      have h2 : ((l.foldl (fun acc p => acc ++ entryUpdates tzI parseI
          (calendarEventMap events) p) []).filter
          (fun x => x.2.id = eid)) = [] := by
        apply List.filter_eq_nil_iff.mpr
        intro y hy
        rcases (mem_foldl_append _ l y).mp hy with ⟨q, hq, hyq⟩
        have ht := (entryUpdates_target tzI parseI hev _ hyq).1
        have hqk : q.1 ≠ eid := by
          intro he
          have hmm : eid ∈ l.map Prod.fst := List.mem_map.mpr ⟨q, hq, he⟩
          exact (List.nodup_cons.mp hnd).1 hmm
        simp [ht, hqk]
      rw [h1, h2, List.append_nil]
    · have hpk : p.1 ≠ eid := by
        intro he
        have hmm : eid ∈ l.map Prod.fst :=
          List.mem_map.mpr ⟨(eid, a), hmem2, rfl⟩
        rw [← he] at hmm
        exact (List.nodup_cons.mp hnd).1 hmm
      have h1 : ((entryUpdates tzI parseI (calendarEventMap events)
          p).filter (fun x => x.2.id = eid)) = [] := by
        apply List.filter_eq_nil_iff.mpr
        intro y hy
        have ht := (entryUpdates_target tzI parseI hev _ hy).1
        simp [ht, hpk]
      rw [h1, List.nil_append]
      exact ih (List.nodup_cons.mp hnd).2 hmem2

theorem toCreate_targets (tzI : String → String → Int)
    (parseI : String → Int) (nowMs : Nat) (db : List Appt)
    (events : List CalEvent) {y : Appt}
    (hy : y ∈ (computeSyncPlan tzI parseI nowMs db
      events).toCreateInCalendar) :
    ∃ p ∈ dbAppointmentMap db, y = p.2 ∧
      mapGet (calendarEventMap events) p.1 = none := by
  rw [computeSyncPlan_toCreate] at hy
  rcases (mem_foldl_append _ _ y).mp hy with ⟨p, hp, hyp⟩
  rcases mem_entryCreates hyp with ⟨h1, h2⟩
  exact ⟨p, hp, h1, h2⟩

theorem foldl_preserves {σ α : Type} (g : σ → α → α) (P : α → Prop)
    (hg : ∀ x b, P b → P (g x b)) :
    ∀ (l : List σ) (b : α), P b → P (l.foldl (fun a x => g x a) b) := by
  intro l
  induction l with
  | nil =>
    intro b hb
    exact hb
  | cons x l ih =>
    intro b hb
    rw [List.foldl_cons]
    exact ih _ (hg x b hb)

theorem getD_mem_or (l : List String) (i : Nat) (d : String) :
    l.getD i d ∈ l ∨ l.getD i d = d := by
  rw [List.getD_eq_getElem?_getD]
  rcases h : l[i]? with _ | v
  · right
    simp
  · left
    simpa using List.getElem?_mem h

/-- C6 (confirmed): during reconciliation, for a scheduled appointment
whose event id is present in the calendar listing, exactly one
`updateAppointment` call pushing the local date/time is issued when the
local instant and the event's start instant differ, and none when they are
equal; in both cases the local record is not written. -/
theorem C6_time_mismatch_single_update
    (tzI : String → String → Int) (parseI : String → Int) (nowMs : Nat)
    (db : List Appt) (events : List CalEvent) (freshIds : List String)
    (a : Appt) (e : CalEvent) (eid : String)
    (hid : (db.map Appt.id).Nodup)
    (hkeys : ((getScheduledWithEvent db).filterMap syncKey).Nodup)
    (hev : (events.map CalEvent.id).Nodup)
    (ha : a ∈ db) (hst : a.status = "scheduled")
    (hgei : a.google_event_id = some eid) (hne : eid ≠ "")
    (he : e ∈ events) (heid : e.id = eid) :
    ((syncCore tzI parseI nowMs db events freshIds).2.2.filter
       (fun c => c.1 = eid)) =
      (if tzI a.appointment_date a.appointment_time = parseI e.start
       then [] else [(eid, a)]) ∧
    a ∈ (syncCore tzI parseI nowMs db events freshIds).1 ∧
    (∀ b ∈ (syncCore tzI parseI nowMs db events freshIds).1,
      b.id = a.id → b = a) := by
  have hsk : syncKey a = some eid := syncKey_some_iff.mpr ⟨hgei, hne⟩
  have hgs : a ∈ getScheduledWithEvent db := by
    unfold getScheduledWithEvent
    exact List.mem_filter.mpr ⟨ha, by simp [hst, hgei]⟩
  have hAeq := dbAppointmentMap_eq db hkeys
  have hAmem : (eid, a) ∈ dbAppointmentMap db := by
    rw [hAeq]
    exact mem_pairMap.mpr ⟨hgs, hsk⟩
  have hAkeys : ((dbAppointmentMap db).map Prod.fst).Nodup := by
    rw [hAeq, pairMap_keys]
    exact hkeys
  have hget : mapGet (calendarEventMap events) eid = some e :=
    (mapGet_calendarEventMap hev).mpr ⟨he, heid⟩
  have hemp := computeSyncPlan_empties tzI parseI nowMs db events
  have hdecomp := applySyncFixes_decomp
    (computeSyncPlan tzI parseI nowMs db events) db events freshIds
    hemp.1 hemp.2.2
  have hsc : syncCore tzI parseI nowMs db events freshIds =
      applySyncFixes (computeSyncPlan tzI parseI nowMs db events) db events
        freshIds := rfl
  have hfix : (computeSyncPlan tzI parseI nowMs db
      events).toCreateInCalendar.enum.foldl
      (fun (b : Appt) (x : Nat × Appt) => if b.id = x.2.id then
         { b with google_event_id := some (freshIds.getD x.1 "") }
       else b) a = a := by
    apply foldl_fix
    intro x hx
    have hx2 : x.2 ∈ (computeSyncPlan tzI parseI nowMs db
        events).toCreateInCalendar := snd_mem_of_mem_enum hx
    rcases toCreate_targets tzI parseI nowMs db events hx2 with
      ⟨p, hp, hyeq, hgnone⟩
    have hne2 : ¬a.id = x.2.id := by
      intro heq
      have hpm : p.2 ∈ getScheduledWithEvent db ∧
          syncKey p.2 = some p.1 := by
        rw [hAeq] at hp
        exact mem_pairMap.mp hp
      have hx2db : x.2 ∈ db := by
        rw [hyeq]
        exact (List.mem_filter.mp hpm.1).1
      have hxa : x.2 = a := appt_id_inj hid hx2db ha heq.symm
      have hap : a = p.2 := by rw [← hxa, hyeq]
      have h9 : syncKey a = some p.1 := by rw [hap]; exact hpm.2
      rw [hsk] at h9
      have hpk : p.1 = eid := (Option.some.inj h9).symm
      rw [hpk, hget] at hgnone
      cases hgnone
    rw [if_neg hne2]
  refine ⟨?_, ?_, ?_⟩
  · rw [hsc, hdecomp]
    show (((computeSyncPlan tzI parseI nowMs db
        events).toUpdateInCalendar.map
      (fun x => (x.2.id, x.1))).filter (fun c => c.1 = eid)) = _
    rw [List.filter_map]
    have hcongr : (((computeSyncPlan tzI parseI nowMs db
        events).toUpdateInCalendar).filter
        ((fun c => c.1 = eid) ∘ (fun x => (x.2.id, x.1)))) =
        (((computeSyncPlan tzI parseI nowMs db
          events).toUpdateInCalendar).filter
          (fun x => x.2.id = eid)) := by
      apply List.filter_congr
      intro x hx
      rfl
    rw [hcongr, computeSyncPlan_toUpdate,
      toUpdate_filter_unique tzI parseI hev eid a _ hAkeys hAmem,
      entryUpdates_eq tzI parseI (eid, a) hget]
    by_cases hc : tzI a.appointment_date a.appointment_time =
        parseI e.start <;> simp [hc, heid]
  · rw [hsc, hdecomp]
    exact List.mem_map.mpr ⟨a, ha, hfix⟩
  · rw [hsc, hdecomp]
    intro b hb hba
    rcases List.mem_map.mp hb with ⟨c, hc, hbc⟩
    have hcid : ((computeSyncPlan tzI parseI nowMs db
        events).toCreateInCalendar.enum.foldl
        (fun (b : Appt) (x : Nat × Appt) => if b.id = x.2.id then
           { b with google_event_id := some (freshIds.getD x.1 "") }
         else b) c).id = c.id := by
      apply foldl_preserves
        (fun (x : Nat × Appt) (b : Appt) => if b.id = x.2.id then
           { b with google_event_id := some (freshIds.getD x.1 "") }
         else b)
        (fun z => z.id = c.id)
      · intro x z hz
        by_cases h : z.id = x.2.id
        · rw [if_pos h]
          exact hz
        · rw [if_neg h]
          exact hz
      · rfl
    have hcida : c.id = a.id := by
      rw [← hba, ← hbc]
      exact hcid.symm
    have hca : c = a := appt_id_inj hid hc ha hcida
    rw [← hbc, hca, hfix]

theorem mem_mapSet {α β : Type} [DecidableEq α] {m : List (α × β)} {k : α}
    {v : β} {p : α × β} (h : p ∈ mapSet m k v) : p ∈ m ∨ p = (k, v) := by
  unfold mapSet at h
  by_cases hc : (m.any (fun p => p.1 = k)) = true
  · rw [if_pos hc] at h
    rcases List.mem_map.mp h with ⟨q, hq, hpq⟩
    by_cases hqk : q.1 = k
    · rw [if_pos (by simpa using hqk)] at hpq
      exact Or.inr hpq.symm
    · rw [if_neg (by simpa using hqk)] at hpq
      exact Or.inl (hpq ▸ hq)
  · rw [if_neg hc] at h
    rcases List.mem_append.mp h with h1 | h2
    · exact Or.inl h1
    · exact Or.inr (by simpa using h2)

theorem dbAppointmentMap_spec (db : List Appt) :
    ∀ p ∈ dbAppointmentMap db,
      p.2 ∈ getScheduledWithEvent db ∧ syncKey p.2 = some p.1 := by
  unfold dbAppointmentMap
  suffices h : ∀ (l : List Appt) (m : List (String × Appt)),
      (∀ a ∈ l, a ∈ getScheduledWithEvent db) →
      (∀ p ∈ m, p.2 ∈ getScheduledWithEvent db ∧ syncKey p.2 = some p.1) →
      ∀ p ∈ l.foldl (fun m a => match a.google_event_id with
        | some eid => if eid = "" then m else mapSet m eid a
        | none => m) m,
        p.2 ∈ getScheduledWithEvent db ∧ syncKey p.2 = some p.1 by
    intro p hp
    exact h (getScheduledWithEvent db) [] (fun a ha => ha) (by simp) p hp
  intro l
  induction l with
  | nil =>
    intro m _ hm p hp
    exact hm p hp
  | cons a l ih =>
    intro m hl hm p hp
    rw [List.foldl_cons] at hp
    rcases hga : a.google_event_id with _ | eid
    · simp only [hga] at hp
      exact ih m (fun b hb => hl b (List.mem_cons_of_mem _ hb)) hm p hp
    · by_cases he : eid = ""
      · simp only [hga, he, if_pos] at hp
        exact ih m (fun b hb => hl b (List.mem_cons_of_mem _ hb)) hm p hp
      · simp only [hga, if_neg he] at hp
        refine ih (mapSet m eid a)
          (fun b hb => hl b (List.mem_cons_of_mem _ hb)) ?_ p hp
        intro q hq
        rcases mem_mapSet hq with hq1 | hq2
        · exact hm q hq1
        · subst hq2
          refine ⟨hl a (List.mem_cons_self _ _), ?_⟩
          show syncKey a = some eid
          exact syncKey_some_iff.mpr ⟨hga, he⟩

theorem toUpdate_targets (tzI : String → String → Int)
    (parseI : String → Int) (nowMs : Nat) (db : List Appt)
    (events : List CalEvent) (hev : (events.map CalEvent.id).Nodup)
    {x : Appt × CalEvent}
    (hx : x ∈ (computeSyncPlan tzI parseI nowMs db
      events).toUpdateInCalendar) :
    ∃ p ∈ dbAppointmentMap db, x.2.id = p.1 := by
  rw [computeSyncPlan_toUpdate] at hx
  rcases (mem_foldl_append _ _ x).mp hx with ⟨p, hp, hxp⟩
  exact ⟨p, hp, (entryUpdates_target tzI parseI hev p hxp).1⟩

/-- C8 (confirmed): a calendar event whose id no scheduled record
references survives a reconciliation pass unchanged — it is not deleted,
no `updateAppointment` call targets it, and no record is imported for it
(the pass adds no rows to the store at all). -/
theorem C8_orphan_event_untouched
    (tzI : String → String → Int) (parseI : String → Int) (nowMs : Nat)
    (db : List Appt) (events : List CalEvent) (freshIds : List String)
    (e : CalEvent)
    (hev : (events.map CalEvent.id).Nodup) (he : e ∈ events)
    (hnoref : ∀ a ∈ db, a.status = "scheduled" →
      a.google_event_id ≠ some e.id)
    (hfresh : e.id ∉ freshIds) (hneid : e.id ≠ "") :
    ((syncCore tzI parseI nowMs db events freshIds).2.1.filter
      (fun ev => ev.id = e.id)) = [e] ∧
    (∀ c ∈ (syncCore tzI parseI nowMs db events freshIds).2.2,
      c.1 ≠ e.id) ∧
    ((syncCore tzI parseI nowMs db events freshIds).1.map Appt.id) =
      db.map Appt.id := by
  have htarget : ∀ x ∈ (computeSyncPlan tzI parseI nowMs db
      events).toUpdateInCalendar, x.2.id ≠ e.id := by
    intro x hx hxe
    rcases toUpdate_targets tzI parseI nowMs db events hev hx with
      ⟨p, hp, hxp⟩
    rcases dbAppointmentMap_spec db p hp with ⟨hgs, hsk⟩
    rcases syncKey_some_iff.mp hsk with ⟨hgei, _⟩
    have hsched : p.2.status = "scheduled" := by
      have := (List.mem_filter.mp hgs).2
      simpa using (of_decide_eq_true (by simpa using this) :
        p.2.status = "scheduled" ∧ p.2.google_event_id.isSome).1
    have hdb : p.2 ∈ db := (List.mem_filter.mp hgs).1
    apply hnoref p.2 hdb hsched
    rw [hgei, ← hxp, hxe]
  have hemp := computeSyncPlan_empties tzI parseI nowMs db events
  have hdecomp := applySyncFixes_decomp
    (computeSyncPlan tzI parseI nowMs db events) db events freshIds
    hemp.1 hemp.2.2
  have hsc : syncCore tzI parseI nowMs db events freshIds =
      applySyncFixes (computeSyncPlan tzI parseI nowMs db events) db events
        freshIds := rfl
  have hupdid : ∀ ev : CalEvent,
      ((computeSyncPlan tzI parseI nowMs db
        events).toUpdateInCalendar.foldl
        (fun (ev : CalEvent) (x : Appt × CalEvent) =>
          if ev.id = x.2.id then { ev with start := mkStart x.1 }
          else ev) ev).id = ev.id := by
    intro ev
    apply foldl_preserves
      (fun (x : Appt × CalEvent) (v : CalEvent) =>
        if v.id = x.2.id then { v with start := mkStart x.1 } else v)
      (fun v => v.id = ev.id)
    · intro x v hv
      by_cases h : v.id = x.2.id
      · rw [if_pos h]
        exact hv
      · rw [if_neg h]
        exact hv
    · rfl
  have hupdfix : ∀ ev : CalEvent, ev.id = e.id →
      ((computeSyncPlan tzI parseI nowMs db
        events).toUpdateInCalendar.foldl
        (fun (ev : CalEvent) (x : Appt × CalEvent) =>
          if ev.id = x.2.id then { ev with start := mkStart x.1 }
          else ev) ev) = ev := by
    intro ev hevid
    apply foldl_fix
    intro x hx
    rw [if_neg]
    rw [hevid]
    exact fun hcon => htarget x hx hcon.symm
  refine ⟨?_, ?_, ?_⟩
  · rw [hsc, hdecomp]
    show (((events ++ (computeSyncPlan tzI parseI nowMs db
        events).toCreateInCalendar.enum.map
        (fun x : Nat × Appt =>
          ({ id := freshIds.getD x.1 "", start := mkStart x.2 } :
            CalEvent))).map
      (fun ev => (computeSyncPlan tzI parseI nowMs db
        events).toUpdateInCalendar.foldl
        (fun (ev : CalEvent) (x : Appt × CalEvent) =>
          if ev.id = x.2.id then { ev with start := mkStart x.1 }
          else ev) ev)).filter (fun ev => ev.id = e.id)) = [e]
    rw [List.filter_map]
    have hcong : ((events ++ (computeSyncPlan tzI parseI nowMs db
        events).toCreateInCalendar.enum.map
        (fun x : Nat × Appt =>
          ({ id := freshIds.getD x.1 "", start := mkStart x.2 } :
            CalEvent))).filter
        ((fun ev => ev.id = e.id) ∘ (fun ev => (computeSyncPlan tzI parseI
          nowMs db events).toUpdateInCalendar.foldl
          (fun (ev : CalEvent) (x : Appt × CalEvent) =>
            if ev.id = x.2.id then { ev with start := mkStart x.1 }
            else ev) ev))) =
        ((events ++ (computeSyncPlan tzI parseI nowMs db
          events).toCreateInCalendar.enum.map
          (fun x : Nat × Appt =>
            ({ id := freshIds.getD x.1 "", start := mkStart x.2 } :
              CalEvent))).filter (fun ev => ev.id = e.id)) := by
      apply List.filter_congr
      intro ev hevm
      show decide ((_ : CalEvent).id = e.id) = decide (ev.id = e.id)
      rw [hupdid ev]
    rw [hcong, List.filter_append]
    have h1 : events.filter (fun ev => ev.id = e.id) = [e] := by
      apply eq_singleton_of_unique
      · exact (List.Nodup.of_map _ hev).filter _
      · exact List.mem_filter.mpr ⟨he, by simp⟩
      · intro x hx
        rcases List.mem_filter.mp hx with ⟨hxm, hxe⟩
        exact calevent_id_inj hev hxm he (by simpa using hxe)
    have h2 : (((computeSyncPlan tzI parseI nowMs db
        events).toCreateInCalendar.enum.map
        (fun x : Nat × Appt =>
          ({ id := freshIds.getD x.1 "", start := mkStart x.2 } :
            CalEvent))).filter (fun ev => ev.id = e.id)) = [] := by
      apply List.filter_eq_nil_iff.mpr
      intro ev hevm
      rcases List.mem_map.mp hevm with ⟨x, _, hxe⟩
      intro hcon
      have hevid : ev.id = freshIds.getD x.1 "" := by rw [← hxe]
      have hcone : ev.id = e.id := by simpa using hcon
      have heid2 : e.id = freshIds.getD x.1 "" := by
        rw [← hevid]
        exact hcone.symm
      rcases getD_mem_or freshIds x.1 "" with hm | hd
      · rw [← heid2] at hm
        exact hfresh hm
      · rw [hd] at heid2
        exact hneid heid2
    rw [h1, h2, List.append_nil]
    show [(computeSyncPlan tzI parseI nowMs db
      events).toUpdateInCalendar.foldl
      (fun (ev : CalEvent) (x : Appt × CalEvent) =>
        if ev.id = x.2.id then { ev with start := mkStart x.1 }
        else ev) e] = [e]
    rw [hupdfix e rfl]
  · rw [hsc, hdecomp]
    intro c hc
    rcases List.mem_map.mp hc with ⟨x, hx, hcx⟩
    have : c.1 = x.2.id := by rw [← hcx]
    rw [this]
    exact htarget x hx
  · rw [hsc, hdecomp]
    show ((db.map (fun b => (computeSyncPlan tzI parseI nowMs db
        events).toCreateInCalendar.enum.foldl
        (fun (b : Appt) (x : Nat × Appt) => if b.id = x.2.id then
           { b with google_event_id := some (freshIds.getD x.1 "") }
         else b) b)).map Appt.id) = db.map Appt.id
    rw [List.map_map]
    apply List.map_congr_left
    intro b _
    show ((computeSyncPlan tzI parseI nowMs db
        events).toCreateInCalendar.enum.foldl
        (fun (b : Appt) (x : Nat × Appt) => if b.id = x.2.id then
           { b with google_event_id := some (freshIds.getD x.1 "") }
         else b) b).id = b.id
    apply foldl_preserves
      (fun (x : Nat × Appt) (z : Appt) => if z.id = x.2.id then
         { z with google_event_id := some (freshIds.getD x.1 "") }
       else z)
      (fun z => z.id = b.id)
    · intro x z hz
      by_cases h : z.id = x.2.id
      · rw [if_pos h]
        exact hz
      · rw [if_neg h]
        exact hz
    · rfl

/-- Witness for C6: a scheduled appointment at 10:00 whose mirrored event
starts at 10:30 (instants 5 ≠ 7 under the interpretation functions) gets
exactly one update call and no local write. -/
theorem C6_witness :
    (([⟨7, "987", "P", "2025-03-01", "10:00", 30, "scheduled", some "ev1",
        0⟩] : List Appt).map Appt.id).Nodup ∧
    ((getScheduledWithEvent [⟨7, "987", "P", "2025-03-01", "10:00", 30,
      "scheduled", some "ev1", 0⟩]).filterMap syncKey).Nodup ∧
    (([⟨"ev1", "2025-03-01T10:30:00"⟩] : List CalEvent).map
      CalEvent.id).Nodup ∧
    (((syncCore (fun _ _ => (5 : Int)) (fun _ => (7 : Int)) 0
      [⟨7, "987", "P", "2025-03-01", "10:00", 30, "scheduled", some "ev1",
        0⟩]
      [⟨"ev1", "2025-03-01T10:30:00"⟩] []).2.2.filter
        (fun c => c.1 = "ev1")) =
      (if (5 : Int) = (7 : Int) then []
       else [("ev1", ⟨7, "987", "P", "2025-03-01", "10:00", 30, "scheduled",
         some "ev1", 0⟩)]) ∧
    (⟨7, "987", "P", "2025-03-01", "10:00", 30, "scheduled", some "ev1",
      0⟩ : Appt) ∈ (syncCore (fun _ _ => (5 : Int)) (fun _ => (7 : Int)) 0
      [⟨7, "987", "P", "2025-03-01", "10:00", 30, "scheduled", some "ev1",
        0⟩]
      [⟨"ev1", "2025-03-01T10:30:00"⟩] []).1 ∧
    (∀ b ∈ (syncCore (fun _ _ => (5 : Int)) (fun _ => (7 : Int)) 0
      [⟨7, "987", "P", "2025-03-01", "10:00", 30, "scheduled", some "ev1",
        0⟩]
      [⟨"ev1", "2025-03-01T10:30:00"⟩] []).1,
      b.id = (⟨7, "987", "P", "2025-03-01", "10:00", 30, "scheduled",
        some "ev1", 0⟩ : Appt).id →
      b = ⟨7, "987", "P", "2025-03-01", "10:00", 30, "scheduled",
        some "ev1", 0⟩)) :=
  ⟨by decide, by decide, by decide,
   C6_time_mismatch_single_update (fun _ _ => (5 : Int))
     (fun _ => (7 : Int)) 0
     [⟨7, "987", "P", "2025-03-01", "10:00", 30, "scheduled", some "ev1",
       0⟩]
     [⟨"ev1", "2025-03-01T10:30:00"⟩] []
     ⟨7, "987", "P", "2025-03-01", "10:00", 30, "scheduled", some "ev1", 0⟩
     ⟨"ev1", "2025-03-01T10:30:00"⟩ "ev1"
     (by decide) (by decide) (by decide) (by decide) (by decide)
     (by decide) (by decide) (by decide) (by decide)⟩

/-- Witness for C8: event `evX` has no matching scheduled record; the pass
leaves it in place, targets no update at it, and adds no record. -/
theorem C8_witness :
    (([⟨"evX", "2025-04-10T09:00:00"⟩, ⟨"other", "2025-04-10T10:00:00"⟩] :
      List CalEvent).map CalEvent.id).Nodup ∧
    (⟨"evX", "2025-04-10T09:00:00"⟩ : CalEvent) ∈
      ([⟨"evX", "2025-04-10T09:00:00"⟩, ⟨"other", "2025-04-10T10:00:00"⟩] :
        List CalEvent) ∧
    (∀ a ∈ ([⟨1, "p", "n", "d", "t", 30, "scheduled", some "other", 0⟩] :
      List Appt), a.status = "scheduled" → a.google_event_id ≠
        some (CalEvent.id ⟨"evX", "2025-04-10T09:00:00"⟩)) ∧
    (CalEvent.id ⟨"evX", "2025-04-10T09:00:00"⟩) ∉ (["n1"] : List String) ∧
    (CalEvent.id ⟨"evX", "2025-04-10T09:00:00"⟩) ≠ "" ∧
    (((syncCore (fun _ _ => (0 : Int)) (fun _ => (0 : Int)) 0
      [⟨1, "p", "n", "d", "t", 30, "scheduled", some "other", 0⟩]
      [⟨"evX", "2025-04-10T09:00:00"⟩, ⟨"other", "2025-04-10T10:00:00"⟩]
      ["n1"]).2.1.filter
        (fun ev => ev.id = CalEvent.id ⟨"evX", "2025-04-10T09:00:00"⟩)) =
      [⟨"evX", "2025-04-10T09:00:00"⟩] ∧
    (∀ c ∈ (syncCore (fun _ _ => (0 : Int)) (fun _ => (0 : Int)) 0
      [⟨1, "p", "n", "d", "t", 30, "scheduled", some "other", 0⟩]
      [⟨"evX", "2025-04-10T09:00:00"⟩, ⟨"other", "2025-04-10T10:00:00"⟩]
      ["n1"]).2.2,
      c.1 ≠ CalEvent.id ⟨"evX", "2025-04-10T09:00:00"⟩) ∧
    ((syncCore (fun _ _ => (0 : Int)) (fun _ => (0 : Int)) 0
      [⟨1, "p", "n", "d", "t", 30, "scheduled", some "other", 0⟩]
      [⟨"evX", "2025-04-10T09:00:00"⟩, ⟨"other", "2025-04-10T10:00:00"⟩]
      ["n1"]).1.map Appt.id) =
      ([⟨1, "p", "n", "d", "t", 30, "scheduled", some "other", 0⟩] :
        List Appt).map Appt.id) :=
  ⟨by decide, by decide, by decide, by decide, by decide,
   C8_orphan_event_untouched (fun _ _ => (0 : Int)) (fun _ => (0 : Int)) 0
     [⟨1, "p", "n", "d", "t", 30, "scheduled", some "other", 0⟩]
     [⟨"evX", "2025-04-10T09:00:00"⟩, ⟨"other", "2025-04-10T10:00:00"⟩]
     ["n1"] ⟨"evX", "2025-04-10T09:00:00"⟩
     (by decide) (by decide) (by decide) (by decide) (by decide)⟩
